import Mathlib

/-
Verification of the put-lang front end: a shallow embedding of the
recursive-descent parser (src/parser.rs), the AST model (src/ast.rs),
the tensor module (src/tensor.rs) and the type checker
(src/type_checker.rs), together with proofs of the specified
properties of these components.
-/

namespace Put

/-- Modelled from the spec: the closed set of token kinds produced by the lexer
(`token.rs` is absent from the available sources; the set below is the one the
spec lists and the one the parser's call sites use). -/
inductive TokenType where
  | Var
  | If
  | Else
  | While
  | Identifier
  | Number
  | Assign
  | Semicolon
  | LeftParen
  | RightParen
  | Plus
  | Minus
  | Star
  | Slash
  | EOF
deriving DecidableEq, Repr

/-- Modelled from the spec: the token value type (kind + lexeme + line) of the
absent `token.rs`; the parser reads exactly the fields `token_type`, `lexeme`
and `line`. -/
structure Token where
  token_type : TokenType
  lexeme : String
  line : Nat
deriving DecidableEq, Repr

/-- Data types tagged onto AST leaves (src/ast.rs, `DataType`). -/
inductive DataType where
  | Integer
  | Float
  | String
  | Boolean
  | Void
deriving DecidableEq, Repr

/-- Binary operators (src/ast.rs, `BinaryOperator`). -/
inductive BinaryOperator where
  | Add
  | Subtract
  | Multiply
  | Divide
deriving DecidableEq, Repr

/-- AST nodes (src/ast.rs). The Rust code uses boxed `dyn StatementNode` trait
objects whose concrete types form exactly this closed set of variants, so the
tree is embedded as one inductive type. -/
inductive Node where
  | VariableNode (name : String) (data_type : DataType)
  | NumberNode (value : String) (data_type : DataType)
  | AssignmentNode (left : Node) (right : Node)
  | BinaryOperationNode (left : Node) (operator : BinaryOperator) (right : Node)
  | ParenthesisNode (expression : Node)
  | IfNode (condition : Node) (then_branch : Node) (else_branch : Option Node)
  | WhileNode (condition : Node) (body : Node)
deriving Repr

/-- The program node: an ordered list of top-level statements (src/ast.rs). -/
structure ProgramNode where
  statements : List Node
deriving Repr

/-- Abrupt outcomes of running the embedded parser: a Rust index-out-of-bounds
panic (`self.tokens[i]` with `i` out of range, or `current - 1` underflow), the
`unreachable!()` panic in the operator selection, and exhaustion of the fuel
that makes the embedding structurally recursive. -/
inductive RunError where
  | indexPanic
  | unreachablePanic
  | outOfFuel
deriving DecidableEq, Repr

/-- Parser state (src/parser.rs, `struct Parser`): the token vector and the
cursor.  Diagnostics printed to stderr by the Rust code are modelled as an
accumulated list of lines. -/
structure PState where
  tokens : List Token
  current : Nat
  diags : List String
deriving DecidableEq, Repr

/-- Cursor state after consuming one token. -/
def bump (st : PState) : PState :=
  PState.mk st.tokens (st.current + 1) st.diags

/-- State with one more diagnostic line appended. -/
def emit (st : PState) (d : String) : PState :=
  PState.mk st.tokens st.current (st.diags ++ [d])

/-- `Parser::peek` (src/parser.rs): `&self.tokens[self.current]`; an
out-of-range cursor is the Rust index panic. -/
def peek (st : PState) : Except RunError Token :=
  match st.tokens.get? st.current with
  | some t => .ok t
  | none => .error .indexPanic

/-- `Parser::previous` (src/parser.rs): `&self.tokens[self.current - 1]`;
at cursor 0 the subtraction underflows, which is a panic. -/
def previous (st : PState) : Except RunError Token :=
  if st.current = 0 then .error .indexPanic
  else
    match st.tokens.get? (st.current - 1) with
    | some t => .ok t
    | none => .error .indexPanic

/-- `Parser::is_at_end` (src/parser.rs). -/
def is_at_end (st : PState) : Except RunError Bool := do
  let t ← peek st
  pure (decide (t.token_type = TokenType.EOF))

/-- `Parser::advance` (src/parser.rs): increment the cursor unless at end,
then return `previous()`. -/
def advance (st : PState) : Except RunError (Token × PState) := do
  let e ← is_at_end st
  let st' := if e then st else bump st
  let t ← previous st'
  pure (t, st')

/-- `Parser::check` (src/parser.rs). -/
def check (st : PState) (tt : TokenType) : Except RunError Bool := do
  let e ← is_at_end st
  if e then
    pure false
  else do
    let t ← peek st
    pure (decide (t.token_type = tt))

/-- `Parser::match_token` (src/parser.rs). -/
def match_token (st : PState) (tt : TokenType) : Except RunError (Bool × PState) := do
  let c ← check st tt
  if c then do
    let (_, st') ← advance st
    pure (true, st')
  else
    pure (false, st)

/-- `Parser::match_any` (src/parser.rs): try each kind in order, consuming the
token at the first hit. -/
def match_any (st : PState) : List TokenType → Except RunError (Bool × PState)
  | [] => pure (false, st)
  | tt :: rest => do
    let c ← check st tt
    if c then do
      let (_, st') ← advance st
      pure (true, st')
    else
      match_any st rest

/-- `Parser::consume` (src/parser.rs): on a kind match, advance and return the
token; otherwise print `Parse error: <message> at line <line>` and return
`None`. -/
def consume (st : PState) (tt : TokenType) (message : String) :
    Except RunError (Option Token × PState) := do
  let c ← check st tt
  if c then do
    let (t, st') ← advance st
    pure (some t, st')
  else do
    let t ← peek st
    pure (none, emit st ("Parse error: " ++ message ++ " at line " ++ toString t.line))

/-- Modelled from the spec/source: the derived `Debug` rendering of a token
kind, as interpolated by `parse_primary`'s `eprintln!("Unexpected token: {:?}",
...)` (the `#[derive(Debug)]` on `Token` lives in the absent `token.rs`). -/
def debug_token_type : TokenType → String
  | .Var => "Var"
  | .If => "If"
  | .Else => "Else"
  | .While => "While"
  | .Identifier => "Identifier"
  | .Number => "Number"
  | .Assign => "Assign"
  | .Semicolon => "Semicolon"
  | .LeftParen => "LeftParen"
  | .RightParen => "RightParen"
  | .Plus => "Plus"
  | .Minus => "Minus"
  | .Star => "Star"
  | .Slash => "Slash"
  | .EOF => "EOF"

/-- Modelled from the spec/source: the derived `Debug` rendering of a whole
`Token` value, used by the `parse_primary` diagnostic. -/
def debug_token (t : Token) : String :=
  "Token \x7b token_type: " ++ debug_token_type t.token_type ++
    ", lexeme: \"" ++ t.lexeme ++ "\", line: " ++ toString t.line ++ " \x7d"

/-- Rust's `lexeme.contains('.')` (src/parser.rs, `parse_primary`): membership
of the dot character among the characters of the lexeme. -/
def has_dot (s : String) : Bool := s.data.contains '.'

/-- Propagation of a `None` sub-result together with the mutated parser state:
the embedding of Rust's `?` operator on `Option`-returning parser methods. -/
def obind {a b : Type} (x : Except RunError (Option a × PState))
    (f : a → PState → Except RunError (Option b × PState)) :
    Except RunError (Option b × PState) := do
  let (oa, st) ← x
  match oa with
  | none => pure (none, st)
  | some v => f v st

mutual

/-- The `while !self.is_at_end()` loop of `Parser::parse` (src/parser.rs):
push each successfully parsed statement, break on the first failure. -/
def parse_loop (acc : List Node) (st : PState) : Nat → Except RunError (List Node × PState)
  | 0 => .error .outOfFuel
  | fuel + 1 => do
    let e ← is_at_end st
    if e then
      pure (acc, st)
    else do
      let (os, st1) ← parse_statement st fuel
      match os with
      | some s => parse_loop (acc ++ [s]) st1 fuel
      | none => pure (acc, st1)

/-- `Parser::parse_statement` (src/parser.rs). -/
def parse_statement (st : PState) : Nat → Except RunError (Option Node × PState)
  | 0 => .error .outOfFuel
  | fuel + 1 => do
    let (m1, st1) ← match_token st .If
    if m1 then parse_if_statement st1 fuel
    else do
      let (m2, st2) ← match_token st1 .While
      if m2 then parse_while_statement st2 fuel
      else do
        let (m3, st3) ← match_token st2 .Var
        if m3 then parse_variable_declaration st3 fuel
        else parse_expression st3 fuel

/-- `Parser::parse_if_statement` (src/parser.rs). -/
def parse_if_statement (st : PState) : Nat → Except RunError (Option Node × PState)
  | 0 => .error .outOfFuel
  | fuel + 1 =>
    obind (consume st .LeftParen "Expect \x27(\x27 after \x27if\x27.") fun _ st1 =>
    obind (parse_expression st1 fuel) fun condition st2 =>
    obind (consume st2 .RightParen "Expect \x27)\x27 after if condition.") fun _ st3 =>
    obind (parse_statement st3 fuel) fun then_branch st4 => do
      let (m, st5) ← match_token st4 .Else
      if m then
        obind (parse_statement st5 fuel) fun else_b st6 =>
          pure (some (Node.IfNode condition then_branch (some else_b)), st6)
      else
        pure (some (Node.IfNode condition then_branch none), st5)

/-- `Parser::parse_while_statement` (src/parser.rs). -/
def parse_while_statement (st : PState) : Nat → Except RunError (Option Node × PState)
  | 0 => .error .outOfFuel
  | fuel + 1 =>
    obind (consume st .LeftParen "Expect \x27(\x27 after \x27while\x27.") fun _ st1 =>
    obind (parse_expression st1 fuel) fun condition st2 =>
    obind (consume st2 .RightParen "Expect \x27)\x27 after while condition.") fun _ st3 =>
    obind (parse_statement st3 fuel) fun body st4 =>
      pure (some (Node.WhileNode condition body), st4)

/-- `Parser::parse_variable_declaration` (src/parser.rs): consume the name,
optionally `= expression`, then `;`; with an initializer the result is an
`AssignmentNode` onto a fresh `VariableNode`, otherwise a bare `VariableNode`
(data type defaulted to `Integer` by the source). -/
def parse_variable_declaration (st : PState) : Nat → Except RunError (Option Node × PState)
  | 0 => .error .outOfFuel
  | fuel + 1 =>
    obind (consume st .Identifier "Expect variable name.") fun name_token st1 => do
      let (m, st2) ← match_token st1 .Assign
      obind (if m then
               obind (parse_expression st2 fuel) fun e st' => pure (some (some e), st')
             else
               pure (some (none : Option Node), st2)) fun initializer st3 =>
      obind (consume st3 .Semicolon "Expect \x27;\x27 after variable declaration.") fun _ st4 =>
        match initializer with
        | some init =>
          pure (some (Node.AssignmentNode
            (Node.VariableNode name_token.lexeme DataType.Integer) init), st4)
        | none =>
          pure (some (Node.VariableNode name_token.lexeme DataType.Integer), st4)

/-- `Parser::parse_expression` (src/parser.rs). -/
def parse_expression (st : PState) : Nat → Except RunError (Option Node × PState)
  | 0 => .error .outOfFuel
  | fuel + 1 => parse_addition st fuel

/-- `Parser::parse_addition` (src/parser.rs): one multiplicative operand, then
the iterative left fold over `+`/`-`. -/
def parse_addition (st : PState) : Nat → Except RunError (Option Node × PState)
  | 0 => .error .outOfFuel
  | fuel + 1 =>
    obind (parse_multiplication st fuel) fun expr st1 =>
      parse_addition_loop expr st1 fuel

/-- The `while self.match_any(&[Plus, Minus])` loop of `parse_addition`
(src/parser.rs); the wildcard arm is the source's `unreachable!()`. -/
def parse_addition_loop (expr : Node) (st : PState) :
    Nat → Except RunError (Option Node × PState)
  | 0 => .error .outOfFuel
  | fuel + 1 => do
    let (m, st1) ← match_any st [TokenType.Plus, TokenType.Minus]
    if m then do
      let prev ← previous st1
      match prev.token_type with
      | TokenType.Plus =>
        obind (parse_multiplication st1 fuel) fun right st2 =>
          parse_addition_loop (Node.BinaryOperationNode expr BinaryOperator.Add right) st2 fuel
      | TokenType.Minus =>
        obind (parse_multiplication st1 fuel) fun right st2 =>
          parse_addition_loop
            (Node.BinaryOperationNode expr BinaryOperator.Subtract right) st2 fuel
      | _ => .error .unreachablePanic
    else
      pure (some expr, st1)

/-- `Parser::parse_multiplication` (src/parser.rs). -/
def parse_multiplication (st : PState) : Nat → Except RunError (Option Node × PState)
  | 0 => .error .outOfFuel
  | fuel + 1 =>
    obind (parse_primary st fuel) fun expr st1 =>
      parse_multiplication_loop expr st1 fuel

/-- The `while self.match_any(&[Star, Slash])` loop of `parse_multiplication`
(src/parser.rs). -/
def parse_multiplication_loop (expr : Node) (st : PState) :
    Nat → Except RunError (Option Node × PState)
  | 0 => .error .outOfFuel
  | fuel + 1 => do
    let (m, st1) ← match_any st [TokenType.Star, TokenType.Slash]
    if m then do
      let prev ← previous st1
      match prev.token_type with
      | TokenType.Star =>
        obind (parse_primary st1 fuel) fun right st2 =>
          parse_multiplication_loop
            (Node.BinaryOperationNode expr BinaryOperator.Multiply right) st2 fuel
      | TokenType.Slash =>
        obind (parse_primary st1 fuel) fun right st2 =>
          parse_multiplication_loop
            (Node.BinaryOperationNode expr BinaryOperator.Divide right) st2 fuel
      | _ => .error .unreachablePanic
    else
      pure (some expr, st1)

/-- `Parser::parse_primary` (src/parser.rs): number, identifier, parenthesized
expression, or the `Unexpected token` diagnostic and failure. -/
def parse_primary (st : PState) : Nat → Except RunError (Option Node × PState)
  | 0 => .error .outOfFuel
  | fuel + 1 => do
    let (m1, st1) ← match_token st .Number
    if m1 then do
      let t ← previous st1
      pure (some (Node.NumberNode t.lexeme
        (if has_dot t.lexeme then DataType.Float else DataType.Integer)), st1)
    else do
      let (m2, st2) ← match_token st1 .Identifier
      if m2 then do
        let t ← previous st2
        pure (some (Node.VariableNode t.lexeme DataType.Integer), st2)
      else do
        let (m3, st3) ← match_token st2 .LeftParen
        if m3 then
          obind (parse_expression st3 fuel) fun e st4 =>
          obind (consume st4 .RightParen "Expect \x27)\x27 after expression.") fun _ st5 =>
            pure (some (Node.ParenthesisNode e), st5)
        else do
          let t ← peek st3
          pure (none, emit st3 ("Unexpected token: " ++ debug_token t))

end

/-- `Parser::parse` (src/parser.rs): run the statement loop from cursor 0 on a
fresh program. -/
def parse (tokens : List Token) (fuel : Nat) : Except RunError (ProgramNode × PState) := do
  let (stmts, st) ← parse_loop [] (PState.mk tokens 0 []) fuel
  pure (ProgramNode.mk stmts, st)

/-- Canonical fuel: enough for any token list of this length (proved below). -/
def parse_fuel (tokens : List Token) : Nat := 10 * tokens.length + 10

/-- The parser run exactly as `main.rs` and the tests run it. -/
def run_parse (tokens : List Token) : Except RunError (ProgramNode × PState) :=
  parse tokens (parse_fuel tokens)

/-- Token on line 1 (all concrete examples below are one-line sources). -/
def tk (tt : TokenType) (lx : String) : Token := Token.mk tt lx 1

/-! The type checker (src/type_checker.rs). -/

/-- `TypeChecker::check_statement` (src/type_checker.rs): the downcast chain
accepts `VariableNode`, recurses into `AssignmentNode` and
`BinaryOperationNode` children, and reports every other variant as an unknown
statement type. -/
def check_statement : Node → Except String Unit
  | Node.VariableNode _ _ => .ok ()
  | Node.AssignmentNode l r => do
    check_statement l
    check_statement r
  | Node.BinaryOperationNode l _ r => do
    check_statement l
    check_statement r
  | _ => .error "Unknown statement type encountered"

/-- The statement loop of `TypeChecker::check_program` (src/type_checker.rs). -/
def check_statements : List Node → Except String Unit
  | [] => .ok ()
  | s :: rest => do
    check_statement s
    check_statements rest

/-- `TypeChecker::check_program` (src/type_checker.rs). -/
def check_program (p : ProgramNode) : Except String Unit :=
  check_statements p.statements

/-- The node variants `check_statement` accepts, closed under its traversal:
variables, and assignments/binary operations whose children are accepted. -/
def known_node : Node → Bool
  | Node.VariableNode _ _ => true
  | Node.AssignmentNode l r => known_node l && known_node r
  | Node.BinaryOperationNode l _ r => known_node l && known_node r
  | _ => false

/-! The tensor module (src/tensor.rs).  The module is generic over nothing in
Rust (`f64` throughout); the embedding is polymorphic in the scalar type so
that its structural behaviour — the only thing the claims are about — can be
evaluated on a decidable scalar type, and the Rust code is the instance at the
floating-point scalars. -/

/-- Outcome of a tensor operation: a normal value, an explicit failure value
(Rust `Err`/`None`), or a panic (`assert_eq!`, `panic!`, out-of-bounds
indexing): abrupt process termination rather than a value returned to the
caller. -/
inductive TResult (a : Type) where
  | ok (value : a)
  | err (msg : String)
  | panicked (msg : String)
deriving DecidableEq, Repr

/-- Tensor: a flat data buffer plus a shape (src/tensor.rs, `struct Tensor`). -/
structure Tensor (a : Type) where
  data : List a
  shape : List Nat
deriving DecidableEq, Repr

/-- List read with the Rust panic on out-of-bounds (`v[i]`). -/
def read_at {a : Type} (l : List a) (i : Nat) : TResult a :=
  match l.get? i with
  | some x => .ok x
  | none => .panicked "index out of bounds"

/-- List write with the Rust panic on out-of-bounds (`v[i] = x`). -/
def write_at {a : Type} (l : List a) (i : Nat) (x : a) : TResult (List a) :=
  if i < l.length then .ok (l.set i x) else .panicked "index out of bounds"

/-- Bind for `TResult`, propagating failures and panics. -/
def tbind {a b : Type} (x : TResult a) (f : a → TResult b) : TResult b :=
  match x with
  | .ok v => f v
  | .err m => .err m
  | .panicked m => .panicked m

/-- `Tensor::new` (src/tensor.rs): `assert_eq!(data.len(), shape.iter().product())`
then construct; the failed assertion is a panic, a precondition violation
rather than a recoverable failure. -/
def Tensor.new {a : Type} (data : List a) (shape : List Nat) : TResult (Tensor a) :=
  if data.length = shape.prod then .ok (Tensor.mk data shape)
  else .panicked "assertion failed: data.len() == shape.iter().product()"

/-- The loop body of `Tensor::compute_index` (src/tensor.rs): fold over the
reversed shape/index pairs, failing on any index at or past its dimension. -/
def compute_index_go : List (Nat × Nat) → Nat → Nat → Option Nat
  | [], index, _ => some index
  | (dim, idx) :: rest, index, multiplier =>
    if idx ≥ dim then none
    else compute_index_go rest (index + idx * multiplier) (multiplier * dim)

/-- `Tensor::compute_index` (src/tensor.rs): arity check, then row-major
linearization with per-dimension bounds checks. -/
def Tensor.compute_index {a : Type} (t : Tensor a) (indices : List Nat) : Option Nat :=
  if indices.length ≠ t.shape.length then none
  else compute_index_go ((t.shape.zip indices).reverse) 0 1

/-- `Tensor::get` (src/tensor.rs): `Option`-valued element access. -/
def Tensor.get {a : Type} (t : Tensor a) (indices : List Nat) : Option a := do
  let i ← t.compute_index indices
  t.data.get? i

/-- `Tensor::set` (src/tensor.rs): `Result`-valued element mutation. -/
def Tensor.set {a : Type} (t : Tensor a) (indices : List Nat) (value : a) :
    Except String (Tensor a) :=
  match t.compute_index indices with
  | none => .error "Invalid indices"
  | some i =>
    if i < t.data.length then .ok (Tensor.mk (t.data.set i value) t.shape)
    else .error "Index out of bounds"

/-- The inner `for k in 0..p` accumulation of `Tensor::matmul` (src/tensor.rs),
with panicking reads like the Rust `self.data[i * p + k]`. -/
def matmul_entry {a : Type} [Add a] [Mul a] [Zero a]
    (ad bd : List a) (p n i j : Nat) : TResult a :=
  (List.range p).foldl
    (fun acc k =>
      tbind acc fun s =>
      tbind (read_at ad (i * p + k)) fun x =>
      tbind (read_at bd (k * n + j)) fun y =>
      .ok (s + x * y))
    (.ok 0)

/-- The nested `for i`/`for j` loops of `Tensor::matmul` building the result
buffer in row-major order. -/
def matmul_data {a : Type} [Add a] [Mul a] [Zero a]
    (ad bd : List a) (m n p : Nat) : TResult (List a) :=
  (List.range m).foldl
    (fun acc i =>
      tbind acc fun rows =>
      tbind ((List.range n).foldl
        (fun racc j =>
          tbind racc fun row =>
          tbind (matmul_entry ad bd p n i j) fun v =>
          .ok (row ++ [v]))
        (.ok [])) fun row =>
      .ok (rows ++ row))
    (.ok [])

/-- `Tensor::matmul` (src/tensor.rs): dimensionality and inner-dimension
checks reported as `Err`, then the triple loop, then `Tensor::new`. -/
def Tensor.matmul {a : Type} [Add a] [Mul a] [Zero a]
    (t other : Tensor a) : TResult (Tensor a) :=
  match t.shape, other.shape with
  | [m, p], [p2, n] =>
    if p ≠ p2 then .err "Inner dimensions must match for matrix multiplication"
    else
      tbind (matmul_data t.data other.data m n p) fun rd =>
      Tensor.new rd [m, n]
  | _, _ => .err "Both tensors must be 2-dimensional for matrix multiplication"

/-- The write loop of `Tensor::transpose` (src/tensor.rs):
`new_data[j * rows + i] = self.data[i * cols + j]` over all `i`, `j`. -/
def transpose_data {a : Type} (d : List a) (rows cols : Nat)
    (init : List a) : TResult (List a) :=
  (List.range rows).foldl
    (fun acc i =>
      (List.range cols).foldl
        (fun acc2 j =>
          tbind acc2 fun buf =>
          tbind (read_at d (i * cols + j)) fun v =>
          write_at buf (j * rows + i) v)
        acc)
    (.ok init)

/-- `Tensor::transpose` (src/tensor.rs): panics unless the tensor is 2-D, then
permutes into a zero-initialized buffer of the same length. -/
def Tensor.transpose {a : Type} [Zero a] (t : Tensor a) : TResult (Tensor a) :=
  match t.shape with
  | [rows, cols] =>
    tbind (transpose_data t.data rows cols (List.replicate t.data.length 0)) fun nd =>
    Tensor.new nd [cols, rows]
  | _ => .panicked "Transpose is currently only supported for 2D tensors"

/-- `impl Add for &Tensor` (src/tensor.rs): `assert_eq!` on the shapes — a
panic on mismatch — then element-wise addition over the zipped buffers. -/
def tensor_add {a : Type} [Add a] (t other : Tensor a) : TResult (Tensor a) :=
  if t.shape ≠ other.shape then .panicked "Shapes must match for addition"
  else Tensor.new ((t.data.zip other.data).map fun p => p.1 + p.2) t.shape

/-- `impl Sub for &Tensor` (src/tensor.rs). -/
def tensor_sub {a : Type} [Sub a] (t other : Tensor a) : TResult (Tensor a) :=
  if t.shape ≠ other.shape then .panicked "Shapes must match for subtraction"
  else Tensor.new ((t.data.zip other.data).map fun p => p.1 - p.2) t.shape

/-- `impl Mul for &Tensor` (src/tensor.rs): element-wise multiplication. -/
def tensor_mul {a : Type} [Mul a] (t other : Tensor a) : TResult (Tensor a) :=
  if t.shape ≠ other.shape then .panicked "Shapes must match for element-wise multiplication"
  else Tensor.new ((t.data.zip other.data).map fun p => p.1 * p.2) t.shape

/-- Discriminator: did the operation end in a panic (abrupt termination)? -/
def TResult.isPanic {a : Type} : TResult a → Bool
  | .panicked _ => true
  | _ => false

/-- Discriminator: did the operation return an explicit failure value? -/
def TResult.isErr {a : Type} : TResult a → Bool
  | .err _ => true
  | _ => false

/-- Number of tokens at or after the cursor. -/
def rem (st : PState) : Nat := st.tokens.length - st.current

/-- Some `EOF` token lies at or after the cursor — the invariant the top-level
loop maintains on every lexer-produced (EOF-terminated) token sequence. -/
def eof_ahead (st : PState) : Prop :=
  ∃ k t, st.current ≤ k ∧ st.tokens.get? k = some t ∧ t.token_type = TokenType.EOF

/-- Post-relation between the entry and exit states of every parser method:
tokens untouched, cursor advanced monotonically and still in range, and the
EOF-ahead invariant preserved. -/
def post (st st' : PState) : Prop :=
  st'.tokens = st.tokens ∧ st.current ≤ st'.current ∧
  st'.current ≤ st.tokens.length ∧ (eof_ahead st → eof_ahead st')

/-- Master contract of an `Option Node`-producing parser method of rank `r`:
with fuel at least `10 * rem + r` and the cursor in range, the run either hits
the index panic (possible only without an EOF ahead) or returns normally with
the `post` relation; for the methods with `strict` set, a successful node
strictly advances the cursor. -/
def M_node (F : PState → Nat → Except RunError (Option Node × PState))
    (r : Nat) (strict : Bool) (fuel : Nat) : Prop :=
  ∀ st, 10 * rem st + r ≤ fuel → st.current ≤ st.tokens.length →
    (F st fuel = .error .indexPanic ∧ ¬ eof_ahead st) ∨
    (∃ res st', F st fuel = .ok (res, st') ∧ post st st' ∧
       (strict = true → res.isSome = true → st.current < st'.current))

/-- Master contract of the top-level statement loop. -/
def M_list (fuel : Nat) : Prop :=
  ∀ acc st, 10 * rem st + 9 ≤ fuel → st.current ≤ st.tokens.length →
    (parse_loop acc st fuel = .error .indexPanic ∧ ¬ eof_ahead st) ∨
    (∃ res st', parse_loop acc st fuel = .ok (res, st') ∧ post st st')

/-! Reduction lemmas for the `Except` monad operations and `obind`, and
behaviour of the cursor primitives expressed through the token under the
cursor. -/

@[simp] theorem except_bind_ok {E A B : Type} (x : A) (f : A → Except E B) :
    (Except.ok x >>= f) = f x := rfl

@[simp] theorem except_bind_error {E A B : Type} (e : E) (f : A → Except E B) :
    ((Except.error e : Except E A) >>= f) = .error e := rfl

@[simp] theorem except_pure_eq {E A : Type} (x : A) :
    (pure x : Except E A) = .ok x := rfl

@[simp] theorem obind_ok_some {a b : Type} (v : a) (st : PState)
    (f : a → PState → Except RunError (Option b × PState)) :
    obind (.ok (some v, st)) f = f v st := rfl

@[simp] theorem obind_ok_none {a b : Type} (st : PState)
    (f : a → PState → Except RunError (Option b × PState)) :
    obind (.ok (none, st)) f = .ok (none, st) := rfl

@[simp] theorem obind_error {a b : Type} (e : RunError)
    (f : a → PState → Except RunError (Option b × PState)) :
    obind (.error e) f = .error e := rfl

theorem peek_at {st : PState} {t : Token}
    (hg : st.tokens.get? st.current = some t) : peek st = .ok t := by
  unfold peek
  rw [hg]

theorem peek_oob {st : PState}
    (hg : st.tokens.get? st.current = none) : peek st = .error .indexPanic := by
  unfold peek
  rw [hg]

theorem previous_bump {st : PState} {t : Token}
    (hg : st.tokens.get? st.current = some t) : previous (bump st) = .ok t := by
  unfold previous bump
  rw [if_neg (Nat.succ_ne_zero st.current)]
  rw [show st.current + 1 - 1 = st.current from rfl]
  rw [hg]

theorem is_at_end_at {st : PState} {t : Token}
    (hg : st.tokens.get? st.current = some t) :
    is_at_end st = .ok (decide (t.token_type = .EOF)) := by
  simp [is_at_end, peek_at hg]

theorem check_at {st : PState} {t : Token} (tt : TokenType)
    (hg : st.tokens.get? st.current = some t) (he : t.token_type ≠ .EOF) :
    check st tt = .ok (decide (t.token_type = tt)) := by
  simp [check, is_at_end_at hg, peek_at hg, he]

theorem check_at_eof {st : PState} {t : Token} (tt : TokenType)
    (hg : st.tokens.get? st.current = some t) (he : t.token_type = .EOF) :
    check st tt = .ok false := by
  simp [check, is_at_end_at hg, he]

theorem check_oob {st : PState} (tt : TokenType)
    (hg : st.tokens.get? st.current = none) :
    check st tt = .error .indexPanic := by
  simp [check, is_at_end, peek_oob hg]

theorem advance_at {st : PState} {t : Token}
    (hg : st.tokens.get? st.current = some t) (he : t.token_type ≠ .EOF) :
    advance st = .ok (t, bump st) := by
  simp [advance, is_at_end_at hg, he, previous_bump hg]

theorem match_token_hit {st : PState} {t : Token} {tt : TokenType}
    (hg : st.tokens.get? st.current = some t) (he : t.token_type ≠ .EOF)
    (ht : t.token_type = tt) :
    match_token st tt = .ok (true, bump st) := by
  simp [match_token, check_at tt hg he, ht, advance_at hg he]

theorem match_token_miss {st : PState} {t : Token} {tt : TokenType}
    (hg : st.tokens.get? st.current = some t)
    (h : t.token_type = .EOF ∨ t.token_type ≠ tt) :
    match_token st tt = .ok (false, st) := by
  rcases h with he | hne
  · simp [match_token, check_at_eof tt hg he]
  · by_cases he : t.token_type = .EOF
    · simp [match_token, check_at_eof tt hg he]
    · simp [match_token, check_at tt hg he, hne]

theorem match_token_oob {st : PState} (tt : TokenType)
    (hg : st.tokens.get? st.current = none) :
    match_token st tt = .error .indexPanic := by
  simp [match_token, check_oob tt hg]

theorem match_any_hit {st : PState} {t : Token} {tts : List TokenType}
    (hg : st.tokens.get? st.current = some t) (he : t.token_type ≠ .EOF)
    (ht : t.token_type ∈ tts) :
    match_any st tts = .ok (true, bump st) := by
  induction tts with
  | nil => cases ht
  | cons a rest ih =>
    rcases List.mem_cons.mp ht with hh | hm
    · simp [match_any, check_at a hg he, hh, advance_at hg he]
    · by_cases hh : t.token_type = a
      · simp [match_any, check_at a hg he, hh, advance_at hg he]
      · simp [match_any, check_at a hg he, hh, ih hm]

theorem match_any_miss {st : PState} {t : Token} {tts : List TokenType}
    (hg : st.tokens.get? st.current = some t)
    (h : t.token_type = .EOF ∨ t.token_type ∉ tts) :
    match_any st tts = .ok (false, st) := by
  induction tts with
  | nil => simp [match_any]
  | cons a rest ih =>
    rcases h with he | hm
    · simp [match_any, check_at_eof a hg he, ih (Or.inl he)]
    · have hne : t.token_type ≠ a := fun hh => hm (hh ▸ List.mem_cons_self a rest)
      have hrest : t.token_type ∉ rest := fun hh => hm (List.mem_cons_of_mem a hh)
      by_cases he : t.token_type = .EOF
      · simp [match_any, check_at_eof a hg he, ih (Or.inl he)]
      · simp [match_any, check_at a hg he, hne, ih (Or.inr hrest)]

theorem match_any_oob {st : PState} {tts : List TokenType} (a : TokenType)
    (hg : st.tokens.get? st.current = none) :
    match_any st (a :: tts) = .error .indexPanic := by
  simp [match_any, check_oob a hg]

theorem consume_hit {st : PState} {t : Token} {tt : TokenType} (msg : String)
    (hg : st.tokens.get? st.current = some t) (he : t.token_type ≠ .EOF)
    (ht : t.token_type = tt) :
    consume st tt msg = .ok (some t, bump st) := by
  simp [consume, check_at tt hg he, ht, advance_at hg he]

theorem consume_miss {st : PState} {t : Token} {tt : TokenType} (msg : String)
    (hg : st.tokens.get? st.current = some t)
    (h : t.token_type = .EOF ∨ t.token_type ≠ tt) :
    consume st tt msg =
      .ok (none, emit st ("Parse error: " ++ msg ++ " at line " ++ toString t.line)) := by
  rcases h with he | hne
  · simp [consume, check_at_eof tt hg he, peek_at hg]
  · by_cases he : t.token_type = .EOF
    · simp [consume, check_at_eof tt hg he, peek_at hg]
    · simp [consume, check_at tt hg he, hne, peek_at hg]

theorem previous_at {tokens : List Token} {k : Nat} {ds : List String} {t : Token}
    (hg : tokens.get? k = some t) :
    previous (PState.mk tokens (k + 1) ds) = .ok t := by
  unfold previous
  rw [if_neg (Nat.succ_ne_zero k)]
  rw [show k + 1 - 1 = k from rfl]
  rw [hg]

theorem is_at_end_false {st : PState} {t : Token}
    (hg : st.tokens.get? st.current = some t) (he : t.token_type ≠ .EOF) :
    is_at_end st = .ok false := by
  rw [is_at_end_at hg, decide_eq_false he]

theorem is_at_end_true {st : PState} {t : Token}
    (hg : st.tokens.get? st.current = some t) (he : t.token_type = .EOF) :
    is_at_end st = .ok true := by
  rw [is_at_end_at hg, decide_eq_true he]

theorem consume_oob {st : PState} (tt : TokenType) (msg : String)
    (hg : st.tokens.get? st.current = none) :
    consume st tt msg = .error .indexPanic := by
  simp [consume, check_oob tt hg]

/-! Concrete token sequences used by the specified examples. -/

/-- The terminating token every lexed sequence ends with. -/
def eof_tk : Token := tk TokenType.EOF ""

/-- Tokens of `a + b * c`. -/
def toks_add_mul : List Token :=
  [tk .Identifier "a", tk .Plus "+", tk .Identifier "b",
   tk .Star "*", tk .Identifier "c", eof_tk]

/-- Tokens of `a + b - c`. -/
def toks_add_sub : List Token :=
  [tk .Identifier "a", tk .Plus "+", tk .Identifier "b",
   tk .Minus "-", tk .Identifier "c", eof_tk]

/-- Tokens of `a * b / c`. -/
def toks_mul_div : List Token :=
  [tk .Identifier "a", tk .Star "*", tk .Identifier "b",
   tk .Slash "/", tk .Identifier "c", eof_tk]

/-- Tokens of `(a + b) * c`. -/
def toks_paren_mul : List Token :=
  [tk .LeftParen "(", tk .Identifier "a", tk .Plus "+", tk .Identifier "b",
   tk .RightParen ")", tk .Star "*", tk .Identifier "c", eof_tk]

/-- Tokens of `var NAME;`. -/
def toks_var_bare (name : String) : List Token :=
  [tk .Var "var", tk .Identifier name, tk .Semicolon ";", eof_tk]

/-- Tokens of `var NAME = ` followed by arbitrary remaining tokens. -/
def var_init_toks (name : String) (rest : List Token) : List Token :=
  tk .Var "var" :: tk .Identifier name :: tk .Assign "=" :: rest

/-- Tokens of `var x = 42 + 5;`. -/
def toks_var_init : List Token :=
  [tk .Var "var", tk .Identifier "x", tk .Assign "=",
   tk .Number "42", tk .Plus "+", tk .Number "5", tk .Semicolon ";", eof_tk]

/-- Tokens of `var x = ;`. -/
def toks_var_missing : List Token :=
  [tk .Var "var", tk .Identifier "x", tk .Assign "=", tk .Semicolon ";", eof_tk]

/-- Tokens of `var a = 1; var x = ; var b = 2;`. -/
def toks_stop_middle : List Token :=
  [tk .Var "var", tk .Identifier "a", tk .Assign "=", tk .Number "1", tk .Semicolon ";",
   tk .Var "var", tk .Identifier "x", tk .Assign "=", tk .Semicolon ";",
   tk .Var "var", tk .Identifier "b", tk .Assign "=", tk .Number "2", tk .Semicolon ";",
   eof_tk]

/-- Tokens of `var x = 42;`. -/
def toks_var_42 : List Token :=
  [tk .Var "var", tk .Identifier "x", tk .Assign "=",
   tk .Number "42", tk .Semicolon ";", eof_tk]

/-- Tokens of the lone statement `a`. -/
def toks_stmt_a : List Token := [tk .Identifier "a", eof_tk]

/-- Tokens of the lone statement `b`. -/
def toks_stmt_b : List Token := [tk .Identifier "b", eof_tk]

/-- Tokens of `a; b`: two valid statements separated by a semicolon. -/
def toks_a_semi_b : List Token :=
  [tk .Identifier "a", tk .Semicolon ";", tk .Identifier "b", eof_tk]

/-- The diagnostic `parse_primary` prints on an unexpected line-1 semicolon. -/
def unexpected_semi_diag : String :=
  "Unexpected token: Token \x7b token_type: Semicolon, lexeme: \";\", line: 1 \x7d"

/-- Abbreviation for the `Variable` leaf the parser builds for identifiers. -/
def vn (name : String) : Node := Node.VariableNode name DataType.Integer

/-- Abbreviation for `BinaryOperationNode`. -/
def bin (l : Node) (op : BinaryOperator) (r : Node) : Node :=
  Node.BinaryOperationNode l op r

mutual

/-- Syntactic additions of the grammar `addition := multiplication
(("+"|"-") multiplication)*`: a first multiplication and the iterated tail. -/
inductive AddSyn where
  | mk (first : MulSyn) (tail : AddTail)

/-- The `(("+"|"-") multiplication)*` tail, in left-to-right source order
(`isPlus` selects `+` over `-`). -/
inductive AddTail where
  | nil
  | cons (isPlus : Bool) (m : MulSyn) (rest : AddTail)

/-- Syntactic multiplications: `multiplication := primary (("*"|"/") primary)*`. -/
inductive MulSyn where
  | mk (first : PrimSyn) (tail : MulTail)

/-- The `(("*"|"/") primary)*` tail (`isStar` selects `*` over `/`). -/
inductive MulTail where
  | nil
  | cons (isStar : Bool) (p : PrimSyn) (rest : MulTail)

/-- Syntactic primaries: `primary := NUMBER | IDENTIFIER | "(" expression ")"`. -/
inductive PrimSyn where
  | num (value : String)
  | ident (name : String)
  | paren (inner : AddSyn)

end

mutual

/-- Token text of an addition. -/
def add_toks : AddSyn → List Token
  | .mk m t => mul_toks m ++ addtail_toks t

/-- Token text of an addition tail. -/
def addtail_toks : AddTail → List Token
  | .nil => []
  | .cons b m rest =>
    (if b then tk .Plus "+" else tk .Minus "-") :: (mul_toks m ++ addtail_toks rest)

/-- Token text of a multiplication. -/
def mul_toks : MulSyn → List Token
  | .mk p t => prim_toks p ++ multail_toks t

/-- Token text of a multiplication tail. -/
def multail_toks : MulTail → List Token
  | .nil => []
  | .cons b p rest =>
    (if b then tk .Star "*" else tk .Slash "/") :: (prim_toks p ++ multail_toks rest)

/-- Token text of a primary. -/
def prim_toks : PrimSyn → List Token
  | .num v => [tk .Number v]
  | .ident n => [tk .Identifier n]
  | .paren a => tk .LeftParen "(" :: (add_toks a ++ [tk .RightParen ")"])

end

mutual

/-- The node the parser builds for an addition: the left fold of the tail
onto the first multiplication. -/
def add_node : AddSyn → Node
  | .mk m t => addtail_node (mul_node m) t

/-- Left fold of an addition tail onto an accumulated left operand. -/
def addtail_node : Node → AddTail → Node
  | e, .nil => e
  | e, .cons b m rest =>
    addtail_node
      (Node.BinaryOperationNode e (if b then .Add else .Subtract) (mul_node m)) rest

/-- The node the parser builds for a multiplication. -/
def mul_node : MulSyn → Node
  | .mk p t => multail_node (prim_node p) t

/-- Left fold of a multiplication tail onto an accumulated left operand. -/
def multail_node : Node → MulTail → Node
  | e, .nil => e
  | e, .cons b p rest =>
    multail_node
      (Node.BinaryOperationNode e (if b then .Multiply else .Divide) (prim_node p)) rest

/-- The node the parser builds for a primary. -/
def prim_node : PrimSyn → Node
  | .num v => Node.NumberNode v (if has_dot v then DataType.Float else DataType.Integer)
  | .ident n => Node.VariableNode n DataType.Integer
  | .paren a => Node.ParenthesisNode (add_node a)

end

mutual

/-- Fuel sufficient to parse an addition. -/
def add_cost : AddSyn → Nat
  | .mk m t => mul_cost m + addtail_cost t + 1

/-- Fuel sufficient to run the addition loop over a tail. -/
def addtail_cost : AddTail → Nat
  | .nil => 1
  | .cons _ m rest => mul_cost m + addtail_cost rest + 1

/-- Fuel sufficient to parse a multiplication. -/
def mul_cost : MulSyn → Nat
  | .mk p t => prim_cost p + multail_cost t + 1

/-- Fuel sufficient to run the multiplication loop over a tail. -/
def multail_cost : MulTail → Nat
  | .nil => 1
  | .cons _ p rest => prim_cost p + multail_cost rest + 1

/-- Fuel sufficient to parse a primary. -/
def prim_cost : PrimSyn → Nat
  | .num _ => 1
  | .ident _ => 1
  | .paren a => add_cost a + 2

end

/-- A var-declaration statement: the self-terminating statement form of the
grammar, either bare (`var NAME;`) or with an arbitrary initializer
expression of the grammar (`var NAME = EXPR;`). -/
inductive DeclChunk where
  | bare (name : String)
  | init (name : String) (e : AddSyn)

/-- The token text of one declaration, including its terminating `;`. -/
def chunk_toks : DeclChunk → List Token
  | .bare n => [tk .Var "var", tk .Identifier n, tk .Semicolon ";"]
  | .init n e => tk .Var "var" :: tk .Identifier n :: tk .Assign "=" ::
      (add_toks e ++ [tk .Semicolon ";"])

/-- The statement node the parser builds for one declaration. -/
def chunk_node : DeclChunk → Node
  | .bare n => vn n
  | .init n e => Node.AssignmentNode (vn n) (add_node e)

/-- The token text of a sequence of declarations. -/
def chunks_toks (l : List DeclChunk) : List Token := (l.map chunk_toks).join

/-- Fuel sufficient to parse one declaration statement. -/
def chunk_cost : DeclChunk → Nat
  | .bare _ => 2
  | .init _ e => add_cost e + 3

/-- Fuel sufficient to run the statement loop over a declaration sequence. -/
def chunks_cost : List DeclChunk → Nat
  | [] => 1
  | c :: l => chunk_cost c + chunks_cost l + 1

/-- Concrete declarations `var x = y; var w = a + b; var u;
var z = (42 + 5) * 2 - 3 / 1.5;` (the last initializer is the expression of
`main.rs`). -/
def c5_decls : List DeclChunk :=
  [DeclChunk.init "x" (AddSyn.mk (MulSyn.mk (PrimSyn.ident "y") MulTail.nil) AddTail.nil),
   DeclChunk.init "w" (AddSyn.mk (MulSyn.mk (PrimSyn.ident "a") MulTail.nil)
     (AddTail.cons true (MulSyn.mk (PrimSyn.ident "b") MulTail.nil) AddTail.nil)),
   DeclChunk.bare "u",
   DeclChunk.init "z" (AddSyn.mk
     (MulSyn.mk
       (PrimSyn.paren (AddSyn.mk (MulSyn.mk (PrimSyn.num "42") MulTail.nil)
         (AddTail.cons true (MulSyn.mk (PrimSyn.num "5") MulTail.nil) AddTail.nil)))
       (MulTail.cons true (PrimSyn.num "2") MulTail.nil))
     (AddTail.cons false (MulSyn.mk (PrimSyn.num "3")
       (MulTail.cons false (PrimSyn.num "1.5") MulTail.nil)) AddTail.nil))]

end Put

open Put

/-- C1: parsing the token sequence of `a + b * c` yields the single statement
`BinaryOperation(Add, Variable(a), BinaryOperation(Multiply, Variable(b),
Variable(c)))` — the multiplicative level binds tighter than the additive
level — and repeated operators at one level left-fold: `a + b - c` parses to
`Subtract(Add(a, b), c)` and `a * b / c` to `Divide(Multiply(a, b), c)`. -/
theorem put_c1_precedence :
    run_parse toks_add_mul =
      .ok (ProgramNode.mk [bin (vn "a") .Add (bin (vn "b") .Multiply (vn "c"))],
           PState.mk toks_add_mul 5 []) ∧
    run_parse toks_add_sub =
      .ok (ProgramNode.mk [bin (bin (vn "a") .Add (vn "b")) .Subtract (vn "c")],
           PState.mk toks_add_sub 5 []) ∧
    run_parse toks_mul_div =
      .ok (ProgramNode.mk [bin (bin (vn "a") .Multiply (vn "b")) .Divide (vn "c")],
           PState.mk toks_mul_div 5 []) :=
  ⟨rfl, rfl, rfl⟩

/-- C2: parsing the token sequence of `(a + b) * c` yields
`BinaryOperation(Multiply, Parenthesis(BinaryOperation(Add, Variable(a),
Variable(b))), Variable(c))`: the parenthesized group overrides precedence and
is kept as an explicit `Parenthesis` node. -/
theorem put_c2_grouping :
    run_parse toks_paren_mul =
      .ok (ProgramNode.mk
             [bin (Node.ParenthesisNode (bin (vn "a") .Add (vn "b"))) .Multiply (vn "c")],
           PState.mk toks_paren_mul 7 []) :=
  rfl

/-- C3: `var NAME;` parses to one statement, a bare `Variable(NAME)` with no
`Assignment` wrapper, for every name; `var NAME = EXPR;` parses to one
statement `Assignment(Variable(NAME), value)` whenever the initializer tokens
parse to expression `value` with the cursor left on the terminating `;`
followed by `EOF`; in particular `var x = 42 + 5;` yields
`Assignment(Variable("x"), BinaryOperation(Add, Number("42", Integer),
Number("5", Integer)))`. -/
theorem put_c3_var_decl :
    (∀ name, run_parse (toks_var_bare name) =
       .ok (ProgramNode.mk [vn name], PState.mk (toks_var_bare name) 3 [])) ∧
    (∀ (name : String) (rest : List Token) (f cur : Nat) (e : Node)
       (ds : List String) (s z : Token),
       parse_expression (PState.mk (var_init_toks name rest) 3 []) f =
         .ok (some e, PState.mk (var_init_toks name rest) cur ds) →
       (var_init_toks name rest).get? cur = some s → s.token_type = .Semicolon →
       (var_init_toks name rest).get? (cur + 1) = some z → z.token_type = .EOF →
       parse (var_init_toks name rest) (f + 3) =
         .ok (ProgramNode.mk [Node.AssignmentNode (vn name) e],
              PState.mk (var_init_toks name rest) (cur + 1) ds)) ∧
    run_parse toks_var_init =
      .ok (ProgramNode.mk
             [Node.AssignmentNode (vn "x")
                (bin (Node.NumberNode "42" DataType.Integer) .Add
                     (Node.NumberNode "5" DataType.Integer))],
           PState.mk toks_var_init 7 []) := by
  refine ⟨fun name => rfl, ?_, rfl⟩
  intro name rest f cur e ds s z hexpr hs hst hz hzt
  have hg0 : (var_init_toks name rest).get? 0 = some (tk TokenType.Var "var") := rfl
  have hg1 : (var_init_toks name rest).get? 1 = some (tk TokenType.Identifier name) := rfl
  have hg2 : (var_init_toks name rest).get? 2 = some (tk TokenType.Assign "=") := rfl
  unfold parse
  rw [show f + 3 = f + 2 + 1 from rfl, parse_loop]
  rw [is_at_end_false hg0 (by decide)]
  simp only [except_bind_ok, Bool.false_eq_true, if_false]
  rw [show f + 2 = f + 1 + 1 from rfl, parse_statement]
  rw [match_token_miss hg0 (Or.inr (by decide))]
  simp only [except_bind_ok, Bool.false_eq_true, if_false]
  rw [match_token_miss hg0 (Or.inr (by decide))]
  simp only [except_bind_ok, Bool.false_eq_true, if_false]
  rw [match_token_hit hg0 (by decide)
        (show (tk TokenType.Var "var").token_type = TokenType.Var from rfl)]
  simp only [except_bind_ok]
  rw [if_pos trivial]
  rw [show bump (PState.mk (var_init_toks name rest) 0 []) =
        PState.mk (var_init_toks name rest) 1 [] from rfl]
  rw [show f + 1 = f + 0 + 1 from rfl, parse_variable_declaration]
  rw [consume_hit _ hg1 (fun h => TokenType.noConfusion h)
        (show (tk TokenType.Identifier name).token_type = TokenType.Identifier from rfl)]
  rw [show bump (PState.mk (var_init_toks name rest) 1 []) =
        PState.mk (var_init_toks name rest) 2 [] from rfl]
  simp only [obind_ok_some]
  rw [match_token_hit hg2 (by decide)
        (show (tk TokenType.Assign "=").token_type = TokenType.Assign from rfl)]
  simp only [except_bind_ok]
  rw [if_pos trivial]
  rw [show bump (PState.mk (var_init_toks name rest) 2 []) =
        PState.mk (var_init_toks name rest) 3 [] from rfl]
  rw [show f + 0 = f from rfl, hexpr]
  simp only [except_pure_eq, obind_ok_some]
  rw [consume_hit _ hs (by rw [hst]; decide) hst]
  rw [show bump (PState.mk (var_init_toks name rest) cur ds) =
        PState.mk (var_init_toks name rest) (cur + 1) ds from rfl]
  simp only [obind_ok_some]
  simp only [except_bind_ok]
  rw [parse_loop]
  rw [is_at_end_true hz hzt]
  simp only [except_bind_ok, if_pos trivial, except_pure_eq]
  rfl

/-- C3 witness: the declaration rule applied at `var x = 42 + 5;` — the
initializer tokens parse to the addition of the two integer literals (checked
by evaluation), and the whole declaration parses to the assignment. -/
theorem put_c3_var_decl_witness :
    parse toks_var_init (10 + 3) =
      .ok (ProgramNode.mk
             [Node.AssignmentNode (vn "x")
                (bin (Node.NumberNode "42" DataType.Integer) .Add
                     (Node.NumberNode "5" DataType.Integer))],
           PState.mk toks_var_init 7 []) :=
  put_c3_var_decl.2.1 "x"
    [tk .Number "42", tk .Plus "+", tk .Number "5", tk .Semicolon ";", eof_tk]
    10 6
    (bin (Node.NumberNode "42" DataType.Integer) .Add
         (Node.NumberNode "5" DataType.Integer))
    [] (tk .Semicolon ";") eof_tk rfl rfl rfl rfl rfl

/-- C4: `parse()` stops at the first statement-level failure and returns only
the statements parsed before it: `var x = ;` yields a `Program` with zero
statements and one emitted diagnostic, and in
`var a = 1; var x = ; var b = 2;` only the first declaration is returned —
the bad statement is not skipped and no resynchronization happens. -/
theorem put_c4_early_stop :
    run_parse toks_var_missing =
      .ok (ProgramNode.mk [], PState.mk toks_var_missing 3 [unexpected_semi_diag]) ∧
    run_parse toks_stop_middle =
      .ok (ProgramNode.mk
             [Node.AssignmentNode (vn "a") (Node.NumberNode "1" DataType.Integer)],
           PState.mk toks_stop_middle 8 [unexpected_semi_diag]) :=
  ⟨rfl, rfl⟩

/-- C5 counterexample: `a` and `b` are each syntactically valid statements, yet
parsing the two of them separated by `;` (`a; b`) produces a `Program` with
one statement, not two — an expression statement does not consume the
separating semicolon, so the next loop iteration fails on it. -/
theorem put_c5_counterexample :
    run_parse toks_stmt_a = .ok (ProgramNode.mk [vn "a"], PState.mk toks_stmt_a 1 []) ∧
    run_parse toks_stmt_b = .ok (ProgramNode.mk [vn "b"], PState.mk toks_stmt_b 1 []) ∧
    ¬ (∃ p st, run_parse toks_a_semi_b = .ok (p, st) ∧ p.statements.length = 2) := by
  refine ⟨rfl, rfl, ?_⟩
  rintro ⟨p, st, h, hl⟩
  rw [show run_parse toks_a_semi_b =
        .ok (ProgramNode.mk [vn "a"],
             PState.mk toks_a_semi_b 1 [unexpected_semi_diag]) from rfl] at h
  obtain ⟨rfl, rfl⟩ := Prod.mk.injEq .. ▸ Except.ok.inj h
  simp [vn] at hl

/-- C7 counterexample: the run on `var x = ;` emits exactly one diagnostic —
the one for the primary-expression failure at the semicolon — and that line is
not of the form `Parse error: <message> at line <line>`: it begins with
`Unexpected token:` instead. -/
theorem put_c7_counterexample :
    run_parse toks_var_missing =
      .ok (ProgramNode.mk [], PState.mk toks_var_missing 3 [unexpected_semi_diag]) ∧
    ¬ ∃ (msg : String) (line : Nat),
        unexpected_semi_diag = "Parse error: " ++ msg ++ " at line " ++ toString line := by
  refine ⟨rfl, ?_⟩
  rintro ⟨msg, line, h⟩
  have h2 := congrArg (fun s : String => s.data.head?) h
  simp only [] at h2
  rw [show unexpected_semi_diag.data.head? = some 'U' from rfl] at h2
  rw [show ∀ m u : String, ("Parse error: " ++ m ++ " at line " ++ u).data.head? = some 'P'
        from fun m u => rfl] at h2
  exact absurd h2 (by decide)

/-- C7 amended: every diagnostic emitted by the parser's `consume` helper has
the exact form `Parse error: <message> at line <line>`; the diagnostic for a
primary-expression failure (current token neither a number, an identifier nor
a left parenthesis) instead has the form `Unexpected token: <token debug>`. -/
theorem put_c7_diag_format :
    (∀ st tt msg st1, consume st tt msg = .ok (none, st1) →
       ∃ t, peek st = .ok t ∧
         st1 = emit st ("Parse error: " ++ msg ++ " at line " ++ toString t.line)) ∧
    (∀ st f t, st.tokens.get? st.current = some t →
       t.token_type ≠ .Number → t.token_type ≠ .Identifier → t.token_type ≠ .LeftParen →
       parse_primary st (f + 1) =
         .ok (none, emit st ("Unexpected token: " ++ debug_token t))) := by
  constructor
  · intro st tt msg st1 h
    cases hg : st.tokens.get? st.current with
    | none => rw [consume_oob tt msg hg] at h; cases h
    | some t =>
      by_cases he : t.token_type = .EOF
      · rw [consume_miss msg hg (Or.inl he)] at h
        obtain ⟨-, rfl⟩ := Prod.mk.injEq .. ▸ Except.ok.inj h
        exact ⟨t, peek_at hg, rfl⟩
      · by_cases ht : t.token_type = tt
        · rw [consume_hit msg hg he ht] at h
          cases (Prod.mk.injEq .. ▸ Except.ok.inj h).1
        · rw [consume_miss msg hg (Or.inr ht)] at h
          obtain ⟨-, rfl⟩ := Prod.mk.injEq .. ▸ Except.ok.inj h
          exact ⟨t, peek_at hg, rfl⟩
  · intro st f t hg hn hi hl
    rw [show f + 1 = f + 1 from rfl, parse_primary]
    by_cases he : t.token_type = .EOF
    · rw [match_token_miss hg (Or.inl he)]
      simp only [except_bind_ok, Bool.false_eq_true, if_false]
      rw [match_token_miss hg (Or.inl he)]
      simp only [except_bind_ok, Bool.false_eq_true, if_false]
      rw [match_token_miss hg (Or.inl he)]
      simp only [except_bind_ok, Bool.false_eq_true, if_false]
      rw [peek_at hg]
      rfl
    · rw [match_token_miss hg (Or.inr hn)]
      simp only [except_bind_ok, Bool.false_eq_true, if_false]
      rw [match_token_miss hg (Or.inr hi)]
      simp only [except_bind_ok, Bool.false_eq_true, if_false]
      rw [match_token_miss hg (Or.inr hl)]
      simp only [except_bind_ok, Bool.false_eq_true, if_false]
      rw [peek_at hg]
      rfl

/-- C7 amended witness: the two format statements evaluated at the concrete
failing `consume` of a right parenthesis at a semicolon, and at the concrete
primary-expression failure on a semicolon. -/
theorem put_c7_diag_format_witness :
    (∃ t, peek (PState.mk [tk .Semicolon ";"] 0 []) = .ok t ∧
       emit (PState.mk [tk .Semicolon ";"] 0 [])
           ("Parse error: " ++ "Expect \x27)\x27 after expression." ++ " at line " ++
             toString t.line) =
         emit (PState.mk [tk .Semicolon ";"] 0 [])
           ("Parse error: " ++ "Expect \x27)\x27 after expression." ++ " at line " ++
             toString t.line)) ∧
    parse_primary (PState.mk [tk .Semicolon ";"] 0 []) (0 + 1) =
      .ok (none, emit (PState.mk [tk .Semicolon ";"] 0 [])
        ("Unexpected token: " ++ debug_token (tk .Semicolon ";"))) := by
  constructor
  · obtain ⟨t, h1, h2⟩ := put_c7_diag_format.1 (PState.mk [tk .Semicolon ";"] 0 [])
      .RightParen "Expect \x27)\x27 after expression."
      (emit (PState.mk [tk .Semicolon ";"] 0 [])
        ("Parse error: " ++ "Expect \x27)\x27 after expression." ++ " at line " ++ toString 1))
      rfl
    exact ⟨t, h1, rfl⟩
  · exact put_c7_diag_format.2 (PState.mk [tk .Semicolon ";"] 0 []) 0
      (tk .Semicolon ";") rfl (by decide) (by decide) (by decide)

/-- C8 counterexample: a shape mismatch in element-wise addition is not
reported as an explicit failure value — `assert_eq!` aborts with a panic. -/
theorem put_c8_counterexample :
    tensor_add (Tensor.mk ([0] : List Int) [1]) (Tensor.mk [0, 0] [2]) =
      .panicked "Shapes must match for addition" ∧
    (tensor_add (Tensor.mk ([0] : List Int) [1]) (Tensor.mk [0, 0] [2])).isErr = false :=
  ⟨rfl, rfl⟩


/-- Success of `check_statement` is exactly membership of the closed set of
accepted variants (`known_node`). -/
theorem check_statement_ok_iff : (s : Node) →
    (check_statement s = Except.ok () ↔ known_node s = true)
  | Node.VariableNode _ _ => by simp [check_statement, known_node]
  | Node.NumberNode _ _ => by simp [check_statement, known_node]
  | Node.ParenthesisNode _ => by simp [check_statement, known_node]
  | Node.IfNode _ _ _ => by simp [check_statement, known_node]
  | Node.WhileNode _ _ => by simp [check_statement, known_node]
  | Node.AssignmentNode l r => by
    have hl := check_statement_ok_iff l
    have hr := check_statement_ok_iff r
    cases hcl : check_statement l with
    | error m =>
      have hkl : known_node l = false := by
        cases hk : known_node l
        · rfl
        · rw [hl.mpr hk] at hcl; cases hcl
      simp [check_statement, known_node, hcl, hkl]
    | ok u =>
      cases u
      have hkl : known_node l = true := hl.mp hcl
      simp [check_statement, known_node, hcl, hkl, hr]
  | Node.BinaryOperationNode l op r => by
    have hl := check_statement_ok_iff l
    have hr := check_statement_ok_iff r
    cases hcl : check_statement l with
    | error m =>
      have hkl : known_node l = false := by
        cases hk : known_node l
        · rfl
        · rw [hl.mpr hk] at hcl; cases hcl
      simp [check_statement, known_node, hcl, hkl]
    | ok u =>
      cases u
      have hkl : known_node l = true := hl.mp hcl
      simp [check_statement, known_node, hcl, hkl, hr]

/-- On any rejected node `check_statement` returns exactly the unknown
statement type error. -/
theorem check_statement_error : (s : Node) → known_node s = false →
    check_statement s = Except.error "Unknown statement type encountered"
  | Node.VariableNode _ _ => fun h => nomatch h
  | Node.NumberNode _ _ => fun _ => rfl
  | Node.ParenthesisNode _ => fun _ => rfl
  | Node.IfNode _ _ _ => fun _ => rfl
  | Node.WhileNode _ _ => fun _ => rfl
  | Node.AssignmentNode l r => fun h => by
    rw [show known_node (Node.AssignmentNode l r) = (known_node l && known_node r)
          from rfl] at h
    cases hkl : known_node l with
    | false =>
      have hel := check_statement_error l hkl
      simp [check_statement, hel]
    | true =>
      rw [hkl, Bool.true_and] at h
      have her := check_statement_error r h
      have hcl := (check_statement_ok_iff l).mpr hkl
      simp [check_statement, hcl, her]
  | Node.BinaryOperationNode l op r => fun h => by
    rw [show known_node (Node.BinaryOperationNode l op r) = (known_node l && known_node r)
          from rfl] at h
    cases hkl : known_node l with
    | false =>
      have hel := check_statement_error l hkl
      simp [check_statement, hel]
    | true =>
      rw [hkl, Bool.true_and] at h
      have her := check_statement_error r h
      have hcl := (check_statement_ok_iff l).mpr hkl
      simp [check_statement, hcl, her]

/-- Success of the statement loop of `check_program` is acceptance of every
listed statement. -/
theorem check_statements_ok_iff : (l : List Node) →
    (check_statements l = Except.ok () ↔ ∀ s ∈ l, known_node s = true)
  | [] => by simp [check_statements]
  | s :: rest => by
    have hs := check_statement_ok_iff s
    have hrest := check_statements_ok_iff rest
    cases hc : check_statement s with
    | error m =>
      have hks : known_node s = false := by
        cases hk : known_node s
        · rfl
        · rw [hs.mpr hk] at hc; cases hc
      simp [check_statements, hc, hks]
    | ok u =>
      cases u
      simp [check_statements, hc, hs.mp hc, hrest]

/-- When some listed statement is rejected, the loop returns exactly the
unknown statement type error. -/
theorem check_statements_error : (l : List Node) →
    ¬ (∀ s ∈ l, known_node s = true) →
    check_statements l = Except.error "Unknown statement type encountered"
  | [] => fun h => absurd (by simp) h
  | s :: rest => fun h => by
    cases hks : known_node s with
    | false =>
      have := check_statement_error s hks
      simp [check_statements, this]
    | true =>
      have hcs := (check_statement_ok_iff s).mpr hks
      have hr : ¬ (∀ u ∈ rest, known_node u = true) := by
        intro hall
        exact h (by simp [hks]; exact hall)
      have := check_statements_error rest hr
      simp [check_statements, hcs, this]

/-- C10: `TypeChecker::check_program` succeeds exactly on programs all of whose
reachable nodes (top-level statements and children of assignments and binary
operations) are `Variable`, `Assignment` or `BinaryOperation` nodes; any
reachable `Number`, `Parenthesis`, `If` or `While` node makes it return
`Err("Unknown statement type encountered")` — in particular it rejects the
program the parser produces for `var x = 42;`. -/
theorem put_c10_type_checker :
    (∀ s, check_statement s = Except.ok () ↔ known_node s = true) ∧
    (∀ s, known_node s = false →
        check_statement s = Except.error "Unknown statement type encountered") ∧
    (∀ p, check_program p = Except.ok () ↔ ∀ s ∈ p.statements, known_node s = true) ∧
    (∀ p, ¬ (∀ s ∈ p.statements, known_node s = true) →
        check_program p = Except.error "Unknown statement type encountered") ∧
    run_parse toks_var_42 =
      .ok (ProgramNode.mk
             [Node.AssignmentNode (vn "x") (Node.NumberNode "42" DataType.Integer)],
           PState.mk toks_var_42 5 []) ∧
    check_program (ProgramNode.mk
        [Node.AssignmentNode (vn "x") (Node.NumberNode "42" DataType.Integer)]) =
      Except.error "Unknown statement type encountered" :=
  ⟨check_statement_ok_iff, check_statement_error,
   fun p => check_statements_ok_iff p.statements,
   fun p => check_statements_error p.statements, rfl, rfl⟩

/-- C10 witness: the characterization evaluated at concrete nodes — the bare
number node is rejected with the unknown statement type error, and the bare
variable node is accepted. -/
theorem put_c10_type_checker_witness :
    check_statement (Node.NumberNode "42" DataType.Integer) =
      Except.error "Unknown statement type encountered" ∧
    check_statement (vn "x") = Except.ok () :=
  ⟨put_c10_type_checker.2.1 (Node.NumberNode "42" DataType.Integer) rfl,
   (put_c10_type_checker.1 (vn "x")).mpr rfl⟩

/-- C8 amended: structural errors in the tensor module split into two kinds —
`matmul` dimension errors and out-of-bounds multi-indices are reported as
explicit failure values (`Err`/`None`), while shape mismatches in the
element-wise operations and a non-2D `transpose` are enforced by
`assert_eq!`/`panic!`, i.e. abrupt termination rather than a failure value. -/
theorem put_c8_structural_errors :
    (∀ (t u : Tensor Int) (m p p2 n : Nat), t.shape = [m, p] → u.shape = [p2, n] →
       p ≠ p2 →
       Tensor.matmul t u = .err "Inner dimensions must match for matrix multiplication") ∧
    (∀ t u : Tensor Int, t.shape.length ≠ 2 ∨ u.shape.length ≠ 2 →
       Tensor.matmul t u = .err "Both tensors must be 2-dimensional for matrix multiplication") ∧
    (∀ (t : Tensor Int) (idx : List Nat), t.compute_index idx = none →
       t.get idx = none ∧ t.set idx 0 = .error "Invalid indices") ∧
    (∀ t u : Tensor Int, t.shape ≠ u.shape →
       tensor_add t u = .panicked "Shapes must match for addition" ∧
       tensor_sub t u = .panicked "Shapes must match for subtraction" ∧
       tensor_mul t u = .panicked "Shapes must match for element-wise multiplication") ∧
    (∀ t : Tensor Int, t.shape.length ≠ 2 →
       t.transpose = .panicked "Transpose is currently only supported for 2D tensors") := by
  refine ⟨?_, ?_, ?_, ?_, ?_⟩
  · intro t u m p p2 n ht hu hp
    simp [Tensor.matmul, ht, hu, hp]
  · intro t u h
    rcases hts : t.shape with _ | ⟨a, _ | ⟨b, _ | ⟨c, r⟩⟩⟩ <;>
      rcases hus : u.shape with _ | ⟨d, _ | ⟨e, _ | ⟨g, q⟩⟩⟩ <;>
      simp [Tensor.matmul, hts, hus] <;>
      simp [hts, hus] at h
  · intro t idx h
    exact ⟨by simp [Tensor.get, h], by simp [Tensor.set, h]⟩
  · intro t u h
    exact ⟨by simp [tensor_add, h], by simp [tensor_sub, h], by simp [tensor_mul, h]⟩
  · intro t h
    rcases hts : t.shape with _ | ⟨a, _ | ⟨b, _ | ⟨c, r⟩⟩⟩ <;>
      simp [Tensor.transpose, hts] <;> simp [hts] at h

/-- C8 witness: the amended statement evaluated on concrete tensors — an inner
dimension mismatch and a 1-D argument reported as `Err`, an out-of-bounds
index reported as `None`, a mismatched element-wise subtraction and a 1-D
transpose panicking. -/
theorem put_c8_structural_errors_witness :
    Tensor.matmul (Tensor.mk ([0, 0] : List Int) [1, 2]) (Tensor.mk [0, 0, 0] [3, 1]) =
      .err "Inner dimensions must match for matrix multiplication" ∧
    Tensor.matmul (Tensor.mk ([0, 0] : List Int) [2]) (Tensor.mk [0, 0] [2]) =
      .err "Both tensors must be 2-dimensional for matrix multiplication" ∧
    (Tensor.mk ([0, 0, 0, 0] : List Int) [2, 2]).get [2, 0] = none ∧
    tensor_sub (Tensor.mk ([0] : List Int) [1]) (Tensor.mk [0, 0] [2]) =
      .panicked "Shapes must match for subtraction" ∧
    (Tensor.mk ([0, 0] : List Int) [2]).transpose =
      .panicked "Transpose is currently only supported for 2D tensors" :=
  ⟨put_c8_structural_errors.1 _ _ 1 2 3 1 rfl rfl (by decide),
   put_c8_structural_errors.2.1 _ _ (Or.inl (by decide)),
   (put_c8_structural_errors.2.2.1 (Tensor.mk ([0, 0, 0, 0] : List Int) [2, 2])
      [2, 0] rfl).1,
   (put_c8_structural_errors.2.2.2.1 _ _ (by decide)).2.1,
   put_c8_structural_errors.2.2.2.2 _ (by decide)⟩

/-! The order-preservation development for sequences of declarations. -/

namespace Put

theorem get_of_drop {tokens L : List Token} {cur : Nat}
    (h : tokens.drop cur = L) (i : Nat) : tokens.get? (cur + i) = L.get? i := by
  rw [← List.get?_drop, h]

theorem drop_chunk {tokens A R : List Token} {cur : Nat}
    (h : tokens.drop cur = A ++ R) : tokens.drop (cur + A.length) = R := by
  have hdd : (tokens.drop cur).drop A.length = tokens.drop (cur + A.length) := by
    rw [List.drop_drop, Nat.add_comm]
  rw [← hdd, h, List.drop_left]

theorem head_get {rest : List Token} {u : Token} (hh : rest.head? = some u) :
    rest.get? 0 = some u := by
  cases rest with
  | nil => exact absurd hh (by simp)
  | cons r rs => simpa using hh

/-- The first token after an addition tail is never `*` or `/`: it is either
the tail's next `+`/`-` operator or the caller-supplied follow token. -/
theorem addtail_follow (t : AddTail) (rest : List Token) (u : Token)
    (hh : rest.head? = some u)
    (h1 : u.token_type ≠ .Star) (h2 : u.token_type ≠ .Slash) :
    ∃ w, (addtail_toks t ++ rest).head? = some w ∧
      w.token_type ≠ .Star ∧ w.token_type ≠ .Slash := by
  cases t with
  | nil => exact ⟨u, hh, h1, h2⟩
  | cons b m rest2 =>
    cases b with
    | true => exact ⟨tk .Plus "+", rfl, by decide, by decide⟩
    | false => exact ⟨tk .Minus "-", rfl, by decide, by decide⟩

mutual

theorem rt_prim : (p : PrimSyn) → ∀ (tokens rest : List Token) (cur : Nat)
    (ds : List String) (f : Nat),
    tokens.drop cur = prim_toks p ++ rest →
    prim_cost p ≤ f →
    parse_primary (PState.mk tokens cur ds) f =
      .ok (some (prim_node p), PState.mk tokens (cur + (prim_toks p).length) ds)
  | .num v => by
    intro tokens rest cur ds f h hf
    have hf1 : 1 ≤ f := by simpa [prim_cost] using hf
    obtain ⟨g, rfl⟩ : ∃ g, f = g + 1 := ⟨f - 1, by omega⟩
    have h0 : tokens.get? cur = some (tk .Number v) := by
      have hg := get_of_drop h 0
      rw [Nat.add_zero] at hg
      exact hg.trans rfl
    rw [parse_primary]
    rw [match_token_hit h0 (fun hh => TokenType.noConfusion hh)
          (show (tk TokenType.Number v).token_type = TokenType.Number from rfl)]
    simp only [except_bind_ok]
    rw [if_pos trivial]
    rw [show bump (PState.mk tokens cur ds) = PState.mk tokens (cur + 1) ds from rfl]
    rw [previous_at h0]
    simp only [except_bind_ok, except_pure_eq]
    rfl
  | .ident n => by
    intro tokens rest cur ds f h hf
    have hf1 : 1 ≤ f := by simpa [prim_cost] using hf
    obtain ⟨g, rfl⟩ : ∃ g, f = g + 1 := ⟨f - 1, by omega⟩
    have h0 : tokens.get? cur = some (tk .Identifier n) := by
      have hg := get_of_drop h 0
      rw [Nat.add_zero] at hg
      exact hg.trans rfl
    rw [parse_primary]
    rw [match_token_miss h0 (Or.inr (fun hh => TokenType.noConfusion hh))]
    simp only [except_bind_ok, Bool.false_eq_true, if_false]
    rw [match_token_hit h0 (fun hh => TokenType.noConfusion hh)
          (show (tk TokenType.Identifier n).token_type = TokenType.Identifier from rfl)]
    simp only [except_bind_ok]
    rw [if_pos trivial]
    rw [show bump (PState.mk tokens cur ds) = PState.mk tokens (cur + 1) ds from rfl]
    rw [previous_at h0]
    simp only [except_bind_ok, except_pure_eq]
    rfl
  | .paren a => by
    intro tokens rest cur ds f h hf
    have hf1 : add_cost a + 2 ≤ f := by simpa [prim_cost] using hf
    obtain ⟨g, rfl⟩ : ∃ g, f = g + 1 := ⟨f - 1, by omega⟩
    have h2 : tokens.drop cur =
        [tk .LeftParen "("] ++ (add_toks a ++ ([tk .RightParen ")"] ++ rest)) := by
      rw [h]
      simp [prim_toks, List.append_assoc]
    have h0 : tokens.get? cur = some (tk .LeftParen "(") := by
      have hg := get_of_drop h2 0
      rw [Nat.add_zero] at hg
      exact hg.trans rfl
    have hdrop1 : tokens.drop (cur + 1) = add_toks a ++ ([tk .RightParen ")"] ++ rest) :=
      drop_chunk h2
    rw [parse_primary]
    rw [match_token_miss h0 (Or.inr (fun hh => TokenType.noConfusion hh))]
    simp only [except_bind_ok, Bool.false_eq_true, if_false]
    rw [match_token_miss h0 (Or.inr (fun hh => TokenType.noConfusion hh))]
    simp only [except_bind_ok, Bool.false_eq_true, if_false]
    rw [match_token_hit h0 (by decide)
          (show (tk TokenType.LeftParen "(").token_type = TokenType.LeftParen from rfl)]
    simp only [except_bind_ok]
    rw [if_pos trivial]
    rw [show bump (PState.mk tokens cur ds) = PState.mk tokens (cur + 1) ds from rfl]
    rw [show g = (g - 1) + 1 from by omega, parse_expression]
    rw [rt_add a tokens ([tk .RightParen ")"] ++ rest) (cur + 1) ds (g - 1)
          (tk .RightParen ")") hdrop1 rfl (by decide) (by decide) (by decide) (by decide)
          (by omega)]
    simp only [obind_ok_some]
    have hdrop2 : tokens.drop (cur + 1 + (add_toks a).length) =
        [tk .RightParen ")"] ++ rest := drop_chunk hdrop1
    have h4 : tokens.get? (cur + 1 + (add_toks a).length) = some (tk .RightParen ")") := by
      have hg := get_of_drop hdrop2 0
      rw [Nat.add_zero] at hg
      exact hg.trans rfl
    rw [consume_hit _ h4 (by decide)
          (show (tk TokenType.RightParen ")").token_type = TokenType.RightParen from rfl)]
    rw [show bump (PState.mk tokens (cur + 1 + (add_toks a).length) ds) =
          PState.mk tokens (cur + 1 + (add_toks a).length + 1) ds from rfl]
    simp only [obind_ok_some, except_pure_eq]
    have hlen : cur + 1 + (add_toks a).length + 1 =
        cur + (prim_toks (PrimSyn.paren a)).length := by
      simp only [prim_toks, List.length_cons, List.length_append, List.length_nil]
      omega
    rw [hlen]
    rfl

theorem rt_mul : (m : MulSyn) → ∀ (tokens rest : List Token) (cur : Nat)
    (ds : List String) (f : Nat) (u : Token),
    tokens.drop cur = mul_toks m ++ rest →
    rest.head? = some u →
    u.token_type ≠ .Star → u.token_type ≠ .Slash →
    mul_cost m ≤ f →
    parse_multiplication (PState.mk tokens cur ds) f =
      .ok (some (mul_node m), PState.mk tokens (cur + (mul_toks m).length) ds)
  | .mk p t => by
    intro tokens rest cur ds f u h hh hs1 hs2 hf
    have hf1 : prim_cost p + multail_cost t + 1 ≤ f := by simpa [mul_cost] using hf
    obtain ⟨g, rfl⟩ : ∃ g, f = g + 1 := ⟨f - 1, by omega⟩
    have h2 : tokens.drop cur = prim_toks p ++ (multail_toks t ++ rest) := by
      rw [h]
      simp [mul_toks, List.append_assoc]
    rw [parse_multiplication]
    rw [rt_prim p tokens (multail_toks t ++ rest) cur ds g h2 (by omega)]
    simp only [obind_ok_some]
    have hdrop : tokens.drop (cur + (prim_toks p).length) = multail_toks t ++ rest :=
      drop_chunk h2
    rw [rt_multail t (prim_node p) tokens rest (cur + (prim_toks p).length) ds g u
          hdrop hh hs1 hs2 (by omega)]
    have hlen : cur + (prim_toks p).length + (multail_toks t).length =
        cur + (mul_toks (MulSyn.mk p t)).length := by
      simp only [mul_toks, List.length_append]
      omega
    rw [hlen]
    rfl

theorem rt_multail : (t : MulTail) → ∀ (expr : Node) (tokens rest : List Token)
    (cur : Nat) (ds : List String) (f : Nat) (u : Token),
    tokens.drop cur = multail_toks t ++ rest →
    rest.head? = some u →
    u.token_type ≠ .Star → u.token_type ≠ .Slash →
    multail_cost t ≤ f →
    parse_multiplication_loop expr (PState.mk tokens cur ds) f =
      .ok (some (multail_node expr t),
           PState.mk tokens (cur + (multail_toks t).length) ds)
  | .nil => by
    intro expr tokens rest cur ds f u h hh hs1 hs2 hf
    have hf1 : 1 ≤ f := by simpa [multail_cost] using hf
    obtain ⟨g, rfl⟩ : ∃ g, f = g + 1 := ⟨f - 1, by omega⟩
    have h0 : tokens.get? cur = some u := by
      have hg := get_of_drop h 0
      rw [Nat.add_zero] at hg
      rw [hg]
      simp only [multail_toks, List.nil_append]
      exact head_get hh
    have hmem : u.token_type ∉ [TokenType.Star, TokenType.Slash] := by
      intro hm
      rcases List.mem_cons.mp hm with h1 | h1
      · exact hs1 h1
      · rcases List.mem_cons.mp h1 with h2 | h2
        · exact hs2 h2
        · exact List.not_mem_nil _ h2
    rw [parse_multiplication_loop]
    rw [match_any_miss h0 (Or.inr hmem)]
    simp only [except_bind_ok, Bool.false_eq_true, if_false, except_pure_eq]
    rfl
  | .cons b p t2 => by
    intro expr tokens rest cur ds f u h hh hs1 hs2 hf
    have hf1 : prim_cost p + multail_cost t2 + 1 ≤ f := by simpa [multail_cost] using hf
    obtain ⟨g, rfl⟩ : ∃ g, f = g + 1 := ⟨f - 1, by omega⟩
    cases b with
    | true =>
      have h2 : tokens.drop cur =
          [tk .Star "*"] ++ (prim_toks p ++ (multail_toks t2 ++ rest)) := by
        rw [h]
        simp [multail_toks, List.append_assoc]
      have h0 : tokens.get? cur = some (tk .Star "*") := by
        have hg := get_of_drop h2 0
        rw [Nat.add_zero] at hg
        exact hg.trans rfl
      rw [parse_multiplication_loop]
      rw [match_any_hit h0 (by decide) (by decide)]
      simp only [except_bind_ok]
      rw [if_pos trivial]
      rw [show bump (PState.mk tokens cur ds) = PState.mk tokens (cur + 1) ds from rfl]
      rw [previous_at h0]
      simp only [except_bind_ok,
        show (tk TokenType.Star "*").token_type = TokenType.Star from rfl]
      have hdrop1 : tokens.drop (cur + 1) = prim_toks p ++ (multail_toks t2 ++ rest) :=
        drop_chunk h2
      rw [rt_prim p tokens (multail_toks t2 ++ rest) (cur + 1) ds g hdrop1 (by omega)]
      simp only [obind_ok_some]
      have hdrop2 : tokens.drop (cur + 1 + (prim_toks p).length) =
          multail_toks t2 ++ rest := drop_chunk hdrop1
      rw [rt_multail t2
            (Node.BinaryOperationNode expr BinaryOperator.Multiply (prim_node p))
            tokens rest (cur + 1 + (prim_toks p).length) ds g u hdrop2 hh hs1 hs2
            (by omega)]
      have hlen : cur + 1 + (prim_toks p).length + (multail_toks t2).length =
          cur + (multail_toks (MulTail.cons true p t2)).length := by
        simp only [multail_toks, List.length_cons, List.length_append]
        omega
      rw [hlen]
      rfl
    | false =>
      have h2 : tokens.drop cur =
          [tk .Slash "/"] ++ (prim_toks p ++ (multail_toks t2 ++ rest)) := by
        rw [h]
        simp [multail_toks, List.append_assoc]
      have h0 : tokens.get? cur = some (tk .Slash "/") := by
        have hg := get_of_drop h2 0
        rw [Nat.add_zero] at hg
        exact hg.trans rfl
      rw [parse_multiplication_loop]
      rw [match_any_hit h0 (by decide) (by decide)]
      simp only [except_bind_ok]
      rw [if_pos trivial]
      rw [show bump (PState.mk tokens cur ds) = PState.mk tokens (cur + 1) ds from rfl]
      rw [previous_at h0]
      simp only [except_bind_ok,
        show (tk TokenType.Slash "/").token_type = TokenType.Slash from rfl]
      have hdrop1 : tokens.drop (cur + 1) = prim_toks p ++ (multail_toks t2 ++ rest) :=
        drop_chunk h2
      rw [rt_prim p tokens (multail_toks t2 ++ rest) (cur + 1) ds g hdrop1 (by omega)]
      simp only [obind_ok_some]
      have hdrop2 : tokens.drop (cur + 1 + (prim_toks p).length) =
          multail_toks t2 ++ rest := drop_chunk hdrop1
      rw [rt_multail t2
            (Node.BinaryOperationNode expr BinaryOperator.Divide (prim_node p))
            tokens rest (cur + 1 + (prim_toks p).length) ds g u hdrop2 hh hs1 hs2
            (by omega)]
      have hlen : cur + 1 + (prim_toks p).length + (multail_toks t2).length =
          cur + (multail_toks (MulTail.cons false p t2)).length := by
        simp only [multail_toks, List.length_cons, List.length_append]
        omega
      rw [hlen]
      rfl

theorem rt_add : (a : AddSyn) → ∀ (tokens rest : List Token) (cur : Nat)
    (ds : List String) (f : Nat) (u : Token),
    tokens.drop cur = add_toks a ++ rest →
    rest.head? = some u →
    u.token_type ≠ .Plus → u.token_type ≠ .Minus →
    u.token_type ≠ .Star → u.token_type ≠ .Slash →
    add_cost a ≤ f →
    parse_addition (PState.mk tokens cur ds) f =
      .ok (some (add_node a), PState.mk tokens (cur + (add_toks a).length) ds)
  | .mk m t => by
    intro tokens rest cur ds f u h hh hp1 hp2 hs1 hs2 hf
    have hf1 : mul_cost m + addtail_cost t + 1 ≤ f := by simpa [add_cost] using hf
    obtain ⟨g, rfl⟩ : ∃ g, f = g + 1 := ⟨f - 1, by omega⟩
    have h2 : tokens.drop cur = mul_toks m ++ (addtail_toks t ++ rest) := by
      rw [h]
      simp [add_toks, List.append_assoc]
    obtain ⟨w, hw, hw1, hw2⟩ := addtail_follow t rest u hh hs1 hs2
    rw [parse_addition]
    rw [rt_mul m tokens (addtail_toks t ++ rest) cur ds g w h2 hw hw1 hw2 (by omega)]
    simp only [obind_ok_some]
    have hdrop : tokens.drop (cur + (mul_toks m).length) = addtail_toks t ++ rest :=
      drop_chunk h2
    rw [rt_addtail t (mul_node m) tokens rest (cur + (mul_toks m).length) ds g u
          hdrop hh hp1 hp2 hs1 hs2 (by omega)]
    have hlen : cur + (mul_toks m).length + (addtail_toks t).length =
        cur + (add_toks (AddSyn.mk m t)).length := by
      simp only [add_toks, List.length_append]
      omega
    rw [hlen]
    rfl

theorem rt_addtail : (t : AddTail) → ∀ (expr : Node) (tokens rest : List Token)
    (cur : Nat) (ds : List String) (f : Nat) (u : Token),
    tokens.drop cur = addtail_toks t ++ rest →
    rest.head? = some u →
    u.token_type ≠ .Plus → u.token_type ≠ .Minus →
    u.token_type ≠ .Star → u.token_type ≠ .Slash →
    addtail_cost t ≤ f →
    parse_addition_loop expr (PState.mk tokens cur ds) f =
      .ok (some (addtail_node expr t),
           PState.mk tokens (cur + (addtail_toks t).length) ds)
  | .nil => by
    intro expr tokens rest cur ds f u h hh hp1 hp2 hs1 hs2 hf
    have hf1 : 1 ≤ f := by simpa [addtail_cost] using hf
    obtain ⟨g, rfl⟩ : ∃ g, f = g + 1 := ⟨f - 1, by omega⟩
    have h0 : tokens.get? cur = some u := by
      have hg := get_of_drop h 0
      rw [Nat.add_zero] at hg
      rw [hg]
      simp only [addtail_toks, List.nil_append]
      exact head_get hh
    have hmem : u.token_type ∉ [TokenType.Plus, TokenType.Minus] := by
      intro hm
      rcases List.mem_cons.mp hm with h1 | h1
      · exact hp1 h1
      · rcases List.mem_cons.mp h1 with h2 | h2
        · exact hp2 h2
        · exact List.not_mem_nil _ h2
    rw [parse_addition_loop]
    rw [match_any_miss h0 (Or.inr hmem)]
    simp only [except_bind_ok, Bool.false_eq_true, if_false, except_pure_eq]
    rfl
  | .cons b m t2 => by
    intro expr tokens rest cur ds f u h hh hp1 hp2 hs1 hs2 hf
    have hf1 : mul_cost m + addtail_cost t2 + 1 ≤ f := by simpa [addtail_cost] using hf
    obtain ⟨g, rfl⟩ : ∃ g, f = g + 1 := ⟨f - 1, by omega⟩
    obtain ⟨w, hw, hw1, hw2⟩ := addtail_follow t2 rest u hh hs1 hs2
    cases b with
    | true =>
      have h2 : tokens.drop cur =
          [tk .Plus "+"] ++ (mul_toks m ++ (addtail_toks t2 ++ rest)) := by
        rw [h]
        simp [addtail_toks, List.append_assoc]
      have h0 : tokens.get? cur = some (tk .Plus "+") := by
        have hg := get_of_drop h2 0
        rw [Nat.add_zero] at hg
        exact hg.trans rfl
      rw [parse_addition_loop]
      rw [match_any_hit h0 (by decide) (by decide)]
      simp only [except_bind_ok]
      rw [if_pos trivial]
      rw [show bump (PState.mk tokens cur ds) = PState.mk tokens (cur + 1) ds from rfl]
      rw [previous_at h0]
      simp only [except_bind_ok,
        show (tk TokenType.Plus "+").token_type = TokenType.Plus from rfl]
      have hdrop1 : tokens.drop (cur + 1) = mul_toks m ++ (addtail_toks t2 ++ rest) :=
        drop_chunk h2
      rw [rt_mul m tokens (addtail_toks t2 ++ rest) (cur + 1) ds g w hdrop1 hw hw1 hw2
            (by omega)]
      simp only [obind_ok_some]
      have hdrop2 : tokens.drop (cur + 1 + (mul_toks m).length) =
          addtail_toks t2 ++ rest := drop_chunk hdrop1
      rw [rt_addtail t2
            (Node.BinaryOperationNode expr BinaryOperator.Add (mul_node m))
            tokens rest (cur + 1 + (mul_toks m).length) ds g u hdrop2 hh hp1 hp2 hs1 hs2
            (by omega)]
      have hlen : cur + 1 + (mul_toks m).length + (addtail_toks t2).length =
          cur + (addtail_toks (AddTail.cons true m t2)).length := by
        simp only [addtail_toks, List.length_cons, List.length_append]
        omega
      rw [hlen]
      rfl
    | false =>
      have h2 : tokens.drop cur =
          [tk .Minus "-"] ++ (mul_toks m ++ (addtail_toks t2 ++ rest)) := by
        rw [h]
        simp [addtail_toks, List.append_assoc]
      have h0 : tokens.get? cur = some (tk .Minus "-") := by
        have hg := get_of_drop h2 0
        rw [Nat.add_zero] at hg
        exact hg.trans rfl
      rw [parse_addition_loop]
      rw [match_any_hit h0 (by decide) (by decide)]
      simp only [except_bind_ok]
      rw [if_pos trivial]
      rw [show bump (PState.mk tokens cur ds) = PState.mk tokens (cur + 1) ds from rfl]
      rw [previous_at h0]
      simp only [except_bind_ok,
        show (tk TokenType.Minus "-").token_type = TokenType.Minus from rfl]
      have hdrop1 : tokens.drop (cur + 1) = mul_toks m ++ (addtail_toks t2 ++ rest) :=
        drop_chunk h2
      rw [rt_mul m tokens (addtail_toks t2 ++ rest) (cur + 1) ds g w hdrop1 hw hw1 hw2
            (by omega)]
      simp only [obind_ok_some]
      have hdrop2 : tokens.drop (cur + 1 + (mul_toks m).length) =
          addtail_toks t2 ++ rest := drop_chunk hdrop1
      rw [rt_addtail t2
            (Node.BinaryOperationNode expr BinaryOperator.Subtract (mul_node m))
            tokens rest (cur + 1 + (mul_toks m).length) ds g u hdrop2 hh hp1 hp2 hs1 hs2
            (by omega)]
      have hlen : cur + 1 + (mul_toks m).length + (addtail_toks t2).length =
          cur + (addtail_toks (AddTail.cons false m t2)).length := by
        simp only [addtail_toks, List.length_cons, List.length_append]
        omega
      rw [hlen]
      rfl

end

theorem parse_statement_chunk (c : DeclChunk) (tokens rest : List Token)
    (cur : Nat) (ds : List String) (f : Nat)
    (h : tokens.drop cur = chunk_toks c ++ rest)
    (hf : chunk_cost c ≤ f) :
    parse_statement (PState.mk tokens cur ds) f =
      .ok (some (chunk_node c), PState.mk tokens (cur + (chunk_toks c).length) ds) := by
  cases c with
  | bare n =>
    have hf1 : 2 ≤ f := by simpa [chunk_cost] using hf
    obtain ⟨g, rfl⟩ : ∃ g, f = g + 1 + 1 := ⟨f - 2, by omega⟩
    have h0 : tokens.get? cur = some (tk .Var "var") := by
      have hg := get_of_drop h 0
      rw [Nat.add_zero] at hg
      exact hg.trans rfl
    have h1 : tokens.get? (cur + 1) = some (tk .Identifier n) := (get_of_drop h 1).trans rfl
    have h2 : tokens.get? (cur + 2) = some (tk .Semicolon ";") := (get_of_drop h 2).trans rfl
    rw [parse_statement]
    rw [match_token_miss h0 (Or.inr (by decide))]
    simp only [except_bind_ok, Bool.false_eq_true, if_false]
    rw [match_token_miss h0 (Or.inr (by decide))]
    simp only [except_bind_ok, Bool.false_eq_true, if_false]
    rw [match_token_hit h0 (by decide)
          (show (tk TokenType.Var "var").token_type = TokenType.Var from rfl)]
    simp only [except_bind_ok]
    rw [if_pos trivial]
    rw [show bump (PState.mk tokens cur ds) = PState.mk tokens (cur + 1) ds from rfl]
    rw [parse_variable_declaration]
    rw [consume_hit _ h1 (fun hh => TokenType.noConfusion hh)
          (show (tk TokenType.Identifier n).token_type = TokenType.Identifier from rfl)]
    rw [show bump (PState.mk tokens (cur + 1) ds) = PState.mk tokens (cur + 1 + 1) ds from rfl]
    simp only [obind_ok_some]
    rw [match_token_miss (show tokens.get? (cur + 1 + 1) = some (tk .Semicolon ";") from h2)
          (Or.inr (by decide))]
    simp only [except_bind_ok, Bool.false_eq_true, if_false]
    simp only [except_pure_eq, obind_ok_some]
    rw [consume_hit _ (show tokens.get? (cur + 1 + 1) = some (tk .Semicolon ";") from h2)
          (by decide)
          (show (tk TokenType.Semicolon ";").token_type = TokenType.Semicolon from rfl)]
    rw [show bump (PState.mk tokens (cur + 1 + 1) ds) =
          PState.mk tokens (cur + 1 + 1 + 1) ds from rfl]
    simp only [obind_ok_some]
    rfl
  | init n e =>
    have hf1 : add_cost e + 3 ≤ f := by simpa [chunk_cost] using hf
    obtain ⟨g, rfl⟩ : ∃ g, f = g + 1 + 1 + 1 := ⟨f - 3, by omega⟩
    have h2 : tokens.drop cur =
        [tk .Var "var", tk .Identifier n, tk .Assign "="] ++
          (add_toks e ++ ([tk .Semicolon ";"] ++ rest)) := by
      rw [h]
      simp [chunk_toks, List.append_assoc]
    have h0 : tokens.get? cur = some (tk .Var "var") := by
      have hg := get_of_drop h2 0
      rw [Nat.add_zero] at hg
      exact hg.trans rfl
    have h1 : tokens.get? (cur + 1) = some (tk .Identifier n) := (get_of_drop h2 1).trans rfl
    have ha : tokens.get? (cur + 2) = some (tk .Assign "=") := (get_of_drop h2 2).trans rfl
    rw [parse_statement]
    rw [match_token_miss h0 (Or.inr (by decide))]
    simp only [except_bind_ok, Bool.false_eq_true, if_false]
    rw [match_token_miss h0 (Or.inr (by decide))]
    simp only [except_bind_ok, Bool.false_eq_true, if_false]
    rw [match_token_hit h0 (by decide)
          (show (tk TokenType.Var "var").token_type = TokenType.Var from rfl)]
    simp only [except_bind_ok]
    rw [if_pos trivial]
    rw [show bump (PState.mk tokens cur ds) = PState.mk tokens (cur + 1) ds from rfl]
    rw [parse_variable_declaration]
    rw [consume_hit _ h1 (fun hh => TokenType.noConfusion hh)
          (show (tk TokenType.Identifier n).token_type = TokenType.Identifier from rfl)]
    rw [show bump (PState.mk tokens (cur + 1) ds) = PState.mk tokens (cur + 1 + 1) ds from rfl]
    simp only [obind_ok_some]
    rw [match_token_hit (show tokens.get? (cur + 1 + 1) = some (tk .Assign "=") from ha)
          (by decide)
          (show (tk TokenType.Assign "=").token_type = TokenType.Assign from rfl)]
    simp only [except_bind_ok]
    rw [if_pos trivial]
    rw [show bump (PState.mk tokens (cur + 1 + 1) ds) =
          PState.mk tokens (cur + 1 + 1 + 1) ds from rfl]
    rw [parse_expression]
    have hdrop3 : tokens.drop (cur + 3) = add_toks e ++ ([tk .Semicolon ";"] ++ rest) :=
      drop_chunk h2
    rw [rt_add e tokens ([tk .Semicolon ";"] ++ rest) (cur + 1 + 1 + 1) ds g
          (tk .Semicolon ";") hdrop3 rfl (by decide) (by decide) (by decide) (by decide)
          (by omega)]
    simp only [obind_ok_some, except_pure_eq]
    have hdrop4 : tokens.drop (cur + 3 + (add_toks e).length) =
        [tk .Semicolon ";"] ++ rest := drop_chunk hdrop3
    have hs : tokens.get? (cur + 1 + 1 + 1 + (add_toks e).length) =
        some (tk .Semicolon ";") := by
      have hg := get_of_drop hdrop4 0
      rw [Nat.add_zero] at hg
      exact hg.trans rfl
    rw [consume_hit _ hs (by decide)
          (show (tk TokenType.Semicolon ";").token_type = TokenType.Semicolon from rfl)]
    rw [show bump (PState.mk tokens (cur + 1 + 1 + 1 + (add_toks e).length) ds) =
          PState.mk tokens (cur + 1 + 1 + 1 + (add_toks e).length + 1) ds from rfl]
    simp only [obind_ok_some]
    have hlen : cur + 1 + 1 + 1 + (add_toks e).length + 1 =
        cur + (chunk_toks (DeclChunk.init n e)).length := by
      simp only [chunk_toks, List.length_cons, List.length_append, List.length_nil]
      omega
    rw [hlen]
    rfl

theorem parse_loop_chunks : (l : List DeclChunk) → ∀ (acc : List Node) (tokens : List Token)
    (cur : Nat) (ds : List String) (f : Nat),
    tokens.drop cur = chunks_toks l ++ [eof_tk] →
    chunks_cost l ≤ f →
    parse_loop acc (PState.mk tokens cur ds) f =
      .ok (acc ++ l.map chunk_node, PState.mk tokens (cur + (chunks_toks l).length) ds)
  | [] => by
    intro acc tokens cur ds f h hf
    have hf1 : 1 ≤ f := by simpa [chunks_cost] using hf
    obtain ⟨g, rfl⟩ : ∃ g, f = g + 1 := ⟨f - 1, by omega⟩
    have h0 : tokens.get? cur = some eof_tk := by
      have hg := get_of_drop h 0
      rw [Nat.add_zero] at hg
      exact hg.trans rfl
    rw [parse_loop]
    rw [is_at_end_true h0 rfl]
    simp only [except_bind_ok]
    rw [if_pos trivial]
    simp only [except_pure_eq, List.map_nil, List.append_nil]
    rfl
  | c :: l2 => by
    intro acc tokens cur ds f h hf
    have hf1 : chunk_cost c + chunks_cost l2 + 1 ≤ f := by simpa [chunks_cost] using hf
    obtain ⟨g, rfl⟩ : ∃ g, f = g + 1 := ⟨f - 1, by omega⟩
    have hsplit : tokens.drop cur = chunk_toks c ++ (chunks_toks l2 ++ [eof_tk]) := by
      rw [h, show chunks_toks (c :: l2) = chunk_toks c ++ chunks_toks l2 from rfl,
          List.append_assoc]
    have h0 : tokens.get? cur = some (tk .Var "var") := by
      have hg := get_of_drop hsplit 0
      rw [Nat.add_zero] at hg
      cases c <;> exact hg.trans rfl
    rw [parse_loop]
    rw [is_at_end_false h0 (by decide)]
    simp only [except_bind_ok, Bool.false_eq_true, if_false]
    rw [parse_statement_chunk c tokens (chunks_toks l2 ++ [eof_tk]) cur ds g hsplit
          (by omega)]
    simp only [except_bind_ok]
    have hdrop2 : tokens.drop (cur + (chunk_toks c).length) = chunks_toks l2 ++ [eof_tk] :=
      drop_chunk hsplit
    rw [parse_loop_chunks l2 (acc ++ [chunk_node c]) tokens
          (cur + (chunk_toks c).length) ds g hdrop2 (by omega)]
    have hlen : cur + (chunk_toks c).length + (chunks_toks l2).length =
        cur + (chunks_toks (c :: l2)).length := by
      rw [show chunks_toks (c :: l2) = chunk_toks c ++ chunks_toks l2 from rfl,
          List.length_append, Nat.add_assoc]
    rw [hlen]
    simp only [List.map_cons, List.append_assoc, List.singleton_append]

/-- C5 amended: for every sequence of N `var` declarations — with or without
an initializer, the initializer any expression of the grammar (numbers,
identifiers, parenthesized groups and `+ - * /` chains), each declaration
ending in its `;` — `parse` returns a `Program` of exactly N statements, the
declarations' nodes in source order. -/
theorem put_c5_order_preservation (l : List DeclChunk) :
    parse (chunks_toks l ++ [eof_tk]) (chunks_cost l) =
      .ok (ProgramNode.mk (l.map chunk_node),
           PState.mk (chunks_toks l ++ [eof_tk]) (chunks_toks l).length []) ∧
    (l.map chunk_node).length = l.length := by
  constructor
  · unfold parse
    rw [parse_loop_chunks l [] (chunks_toks l ++ [eof_tk]) 0 [] (chunks_cost l)
          (by rw [List.drop_zero]) (Nat.le_refl _)]
    simp only [List.nil_append, except_bind_ok, except_pure_eq, Nat.zero_add]
  · simp

/-- C5 amended witness: the four declarations `var x = y; var w = a + b;
var u; var z = (42 + 5) * 2 - 3 / 1.5;` parse to exactly their four statement
nodes in order. -/
theorem put_c5_order_preservation_witness :
    parse (chunks_toks c5_decls ++ [eof_tk]) (chunks_cost c5_decls) =
      .ok (ProgramNode.mk (c5_decls.map chunk_node),
           PState.mk (chunks_toks c5_decls ++ [eof_tk]) (chunks_toks c5_decls).length []) ∧
    (c5_decls.map chunk_node).length = 4 :=
  ⟨(put_c5_order_preservation c5_decls).1,
   (put_c5_order_preservation c5_decls).2.trans rfl⟩

end Put

/-! Termination and bounds safety of the whole parser: the master induction. -/

namespace Put

theorem cur_lt_of_get_some {st : PState} {t : Token}
    (hg : st.tokens.get? st.current = some t) : st.current < st.tokens.length := by
  rcases List.get?_eq_some.mp hg with ⟨h, -⟩
  exact h

theorem cur_ge_of_get_none {st : PState}
    (hg : st.tokens.get? st.current = none) : st.tokens.length ≤ st.current :=
  List.get?_eq_none.mp hg

theorem not_eof_ahead_of_oob {st : PState}
    (hg : st.tokens.get? st.current = none) : ¬ eof_ahead st := by
  rintro ⟨k, t, hk, ht, -⟩
  rcases List.get?_eq_some.mp ht with ⟨hlt, -⟩
  exact absurd (lt_of_le_of_lt hk hlt) (not_lt.mpr (cur_ge_of_get_none hg))

theorem eof_ahead_bump {st : PState} {t : Token}
    (hg : st.tokens.get? st.current = some t) (he : t.token_type ≠ .EOF) :
    eof_ahead st → eof_ahead (bump st) := by
  rintro ⟨k, u, hk, hu, hut⟩
  rcases eq_or_lt_of_le hk with heq | hlt
  · exfalso
    rw [← heq] at hu
    rw [hg] at hu
    cases hu
    exact he hut
  · exact ⟨k, u, hlt, hu, hut⟩

theorem post_refl {st : PState} (h : st.current ≤ st.tokens.length) : post st st :=
  ⟨rfl, le_refl _, h, id⟩

theorem post_emit {st : PState} (h : st.current ≤ st.tokens.length) (d : String) :
    post st (emit st d) := by
  refine ⟨rfl, le_refl _, h, ?_⟩
  rintro ⟨k, u, hk, hu, hut⟩
  exact ⟨k, u, hk, hu, hut⟩

theorem post_bump {st : PState} {t : Token}
    (hg : st.tokens.get? st.current = some t) (he : t.token_type ≠ .EOF) :
    post st (bump st) :=
  ⟨rfl, Nat.le_succ _, cur_lt_of_get_some hg, eof_ahead_bump hg he⟩

theorem post_trans {a b c : PState} (h1 : post a b) (h2 : post b c) : post a c := by
  obtain ⟨e1, l1, u1, f1⟩ := h1
  obtain ⟨e2, l2, u2, f2⟩ := h2
  exact ⟨e2.trans e1, l1.trans l2, by rw [e1] at u2; exact u2, fun h => f2 (f1 h)⟩

theorem rem_bump {st : PState} {t : Token}
    (hg : st.tokens.get? st.current = some t) :
    rem st = rem (bump st) + 1 := by
  have := cur_lt_of_get_some hg
  unfold rem bump
  simp only []
  omega

theorem rem_emit (st : PState) (d : String) : rem (emit st d) = rem st := rfl

theorem rem_le_of_post {a b : PState} (h : post a b) : rem b ≤ rem a := by
  obtain ⟨e, l, u, -⟩ := h
  unfold rem
  rw [e]
  omega

end Put


namespace Put

theorem is_at_end_cases (st : PState) :
    (is_at_end st = .error .indexPanic ∧ st.tokens.get? st.current = none) ∨
    (∃ t, st.tokens.get? st.current = some t ∧
       is_at_end st = .ok (decide (t.token_type = .EOF))) := by
  cases hg : st.tokens.get? st.current with
  | none => exact Or.inl ⟨by simp [is_at_end, peek_oob hg], rfl⟩
  | some t => exact Or.inr ⟨t, rfl, is_at_end_at hg⟩

theorem match_token_cases (st : PState) (tt : TokenType) :
    (match_token st tt = .error .indexPanic ∧ st.tokens.get? st.current = none) ∨
    (∃ t, st.tokens.get? st.current = some t ∧
       ((t.token_type ≠ .EOF ∧ t.token_type = tt ∧
           match_token st tt = .ok (true, bump st)) ∨
        ((t.token_type = .EOF ∨ t.token_type ≠ tt) ∧
           match_token st tt = .ok (false, st)))) := by
  cases hg : st.tokens.get? st.current with
  | none => exact Or.inl ⟨match_token_oob tt hg, rfl⟩
  | some t =>
    refine Or.inr ⟨t, rfl, ?_⟩
    by_cases he : t.token_type = .EOF
    · exact Or.inr ⟨Or.inl he, match_token_miss hg (Or.inl he)⟩
    · by_cases ht : t.token_type = tt
      · exact Or.inl ⟨he, ht, match_token_hit hg he ht⟩
      · exact Or.inr ⟨Or.inr ht, match_token_miss hg (Or.inr ht)⟩

theorem match_any_cases (st : PState) (a : TokenType) (tts : List TokenType) :
    (match_any st (a :: tts) = .error .indexPanic ∧ st.tokens.get? st.current = none) ∨
    (∃ t, st.tokens.get? st.current = some t ∧
       ((t.token_type ≠ .EOF ∧ t.token_type ∈ a :: tts ∧
           match_any st (a :: tts) = .ok (true, bump st)) ∨
        ((t.token_type = .EOF ∨ t.token_type ∉ a :: tts) ∧
           match_any st (a :: tts) = .ok (false, st)))) := by
  cases hg : st.tokens.get? st.current with
  | none => exact Or.inl ⟨match_any_oob a hg, rfl⟩
  | some t =>
    refine Or.inr ⟨t, rfl, ?_⟩
    by_cases he : t.token_type = .EOF
    · exact Or.inr ⟨Or.inl he, match_any_miss hg (Or.inl he)⟩
    · by_cases ht : t.token_type ∈ a :: tts
      · exact Or.inl ⟨he, ht, match_any_hit hg he ht⟩
      · exact Or.inr ⟨Or.inr ht, match_any_miss hg (Or.inr ht)⟩

theorem consume_cases (st : PState) (tt : TokenType) (msg : String) :
    (consume st tt msg = .error .indexPanic ∧ st.tokens.get? st.current = none) ∨
    (∃ t, st.tokens.get? st.current = some t ∧
       ((t.token_type ≠ .EOF ∧ t.token_type = tt ∧
           consume st tt msg = .ok (some t, bump st)) ∨
        ((t.token_type = .EOF ∨ t.token_type ≠ tt) ∧
           consume st tt msg =
             .ok (none, emit st ("Parse error: " ++ msg ++ " at line " ++ toString t.line))))) := by
  cases hg : st.tokens.get? st.current with
  | none => exact Or.inl ⟨consume_oob tt msg hg, rfl⟩
  | some t =>
    refine Or.inr ⟨t, rfl, ?_⟩
    by_cases he : t.token_type = .EOF
    · exact Or.inr ⟨Or.inl he, consume_miss msg hg (Or.inl he)⟩
    · by_cases ht : t.token_type = tt
      · exact Or.inl ⟨he, ht, consume_hit msg hg he ht⟩
      · exact Or.inr ⟨Or.inr ht, consume_miss msg hg (Or.inr ht)⟩

end Put


namespace Put

theorem master_expr_step {v : Nat} (IHadd : M_node parse_addition 5 true v) :
    M_node parse_expression 6 true (v + 1) := by
  intro st hb hc
  rcases IHadd st (by omega) hc with ⟨herr, hne⟩ | ⟨res, st', heq, hp, hs⟩
  · exact Or.inl ⟨by simp only [parse_expression]; exact herr, hne⟩
  · exact Or.inr ⟨res, st', by simp only [parse_expression]; exact heq, hp, hs⟩

theorem master_primary_step {v : Nat} (IHexpr : M_node parse_expression 6 true v) :
    M_node parse_primary 1 true (v + 1) := by
  intro st hb hc
  rcases match_token_cases st .Number with ⟨hmt, hg⟩ | ⟨t, hg, ⟨hne, htt, hmt⟩ | ⟨hm1, hmt⟩⟩
  · exact Or.inl ⟨by simp only [parse_primary, hmt, except_bind_error],
      not_eof_ahead_of_oob hg⟩
  · refine Or.inr ⟨some (Node.NumberNode t.lexeme
        (if has_dot t.lexeme then DataType.Float else DataType.Integer)), bump st,
        ?_, post_bump hg hne, fun _ _ => Nat.lt_succ_self _⟩
    simp only [parse_primary, hmt, except_bind_ok]
    rw [if_pos trivial, previous_bump hg]
    simp only [except_bind_ok, except_pure_eq]
  · by_cases hti : t.token_type = .Identifier
    · have hnei : t.token_type ≠ .EOF := by rw [hti]; decide
      refine Or.inr ⟨some (Node.VariableNode t.lexeme DataType.Integer), bump st,
        ?_, post_bump hg hnei, fun _ _ => Nat.lt_succ_self _⟩
      simp only [parse_primary, hmt, except_bind_ok, Bool.false_eq_true, if_false]
      rw [match_token_hit hg hnei hti]
      simp only [except_bind_ok]
      rw [if_pos trivial, previous_bump hg]
      simp only [except_bind_ok, except_pure_eq]
    · have hmt2 : match_token st .Identifier = .ok (false, st) :=
        match_token_miss hg (Or.inr hti)
      by_cases htl : t.token_type = .LeftParen
      · have hnel : t.token_type ≠ .EOF := by rw [htl]; decide
        have hmt3 : match_token st .LeftParen = .ok (true, bump st) :=
          match_token_hit hg hnel htl
        have hbc : (bump st).current ≤ (bump st).tokens.length :=
          cur_lt_of_get_some hg
        have hrem : rem st = rem (bump st) + 1 := rem_bump hg
        have hpb : post st (bump st) := post_bump hg hnel
        rcases IHexpr (bump st) (by omega) hbc with ⟨herr, hne2⟩ | ⟨res, st4, heq, hp, -⟩
        · refine Or.inl ⟨?_, fun he => hne2 (eof_ahead_bump hg hnel he)⟩
          simp only [parse_primary, hmt, hmt2, hmt3, except_bind_ok,
            Bool.false_eq_true, if_false]
          rw [if_pos trivial, herr]
          simp only [obind_error]
        · cases res with
          | none =>
            refine Or.inr ⟨none, st4, ?_, post_trans hpb hp, fun _ h => nomatch h⟩
            simp only [parse_primary, hmt, hmt2, hmt3, except_bind_ok,
              Bool.false_eq_true, if_false]
            rw [if_pos trivial, heq]
            simp only [obind_ok_none]
          | some e =>
            rcases consume_cases st4 .RightParen "Expect \x27)\x27 after expression." with
              ⟨hcs, hg4⟩ | ⟨u, hg4, ⟨hneu, httu, hcs⟩ | ⟨hm4, hcs⟩⟩
            · refine Or.inl ⟨?_, fun he =>
                not_eof_ahead_of_oob hg4 ((post_trans hpb hp).2.2.2 he)⟩
              simp only [parse_primary, hmt, hmt2, hmt3, except_bind_ok,
                Bool.false_eq_true, if_false]
              rw [if_pos trivial, heq]
              simp only [obind_ok_some]
              rw [hcs]
              simp only [obind_error]
            · refine Or.inr ⟨some (Node.ParenthesisNode e), bump st4,
                ?_, post_trans hpb (post_trans hp (post_bump hg4 hneu)), fun _ _ => ?_⟩
              · simp only [parse_primary, hmt, hmt2, hmt3, except_bind_ok,
                  Bool.false_eq_true, if_false]
                rw [if_pos trivial, heq]
                simp only [obind_ok_some]
                rw [hcs]
                simp only [obind_ok_some, except_pure_eq]
              · have h21 : st.current + 1 ≤ st4.current := hp.2.1
                show st.current < st4.current + 1
                omega
            · refine Or.inr ⟨none, emit st4 ("Parse error: " ++
                  "Expect \x27)\x27 after expression." ++ " at line " ++ toString u.line),
                ?_, post_trans hpb (post_trans hp (post_emit (by rw [hp.1]; exact hp.2.2.1) _)),
                fun _ h => nomatch h⟩
              simp only [parse_primary, hmt, hmt2, hmt3, except_bind_ok,
                Bool.false_eq_true, if_false]
              rw [if_pos trivial, heq]
              simp only [obind_ok_some]
              rw [hcs]
              simp only [obind_ok_none]
      · have hmt3 : match_token st .LeftParen = .ok (false, st) :=
          match_token_miss hg (Or.inr htl)
        refine Or.inr ⟨none, emit st ("Unexpected token: " ++ debug_token t),
          ?_, post_emit hc _, fun _ h => nomatch h⟩
        simp only [parse_primary, hmt, hmt2, hmt3, except_bind_ok,
          Bool.false_eq_true, if_false]
        rw [peek_at hg]
        simp only [except_bind_ok, except_pure_eq]

end Put


namespace Put

theorem master_mulloop_step {v : Nat} (IHprim : M_node parse_primary 1 true v)
    (IHmull : ∀ e, M_node (fun st f => parse_multiplication_loop e st f) 2 false v) :
    ∀ e, M_node (fun st f => parse_multiplication_loop e st f) 2 false (v + 1) := by
  intro e st hb hc
  rcases match_any_cases st .Star [.Slash] with ⟨hma, hg⟩ | ⟨t, hg, ⟨hne, hmem, hma⟩ | ⟨hm, hma⟩⟩
  · exact Or.inl ⟨by simp only [parse_multiplication_loop, hma, except_bind_error],
      not_eof_ahead_of_oob hg⟩
  · have hrem : rem st = rem (bump st) + 1 := rem_bump hg
    have hbc : (bump st).current ≤ (bump st).tokens.length := cur_lt_of_get_some hg
    have hpb : post st (bump st) := post_bump hg hne
    have hms : t.token_type = .Star ∨ t.token_type = .Slash := by simpa using hmem
    have main : ∀ op : BinaryOperator,
        (parse_multiplication_loop e st (v + 1) =
          obind (parse_primary (bump st) v) fun right st2 =>
            parse_multiplication_loop (Node.BinaryOperationNode e op right) st2 v) →
        (parse_multiplication_loop e st (v + 1) = .error .indexPanic ∧ ¬ eof_ahead st) ∨
        (∃ res st', parse_multiplication_loop e st (v + 1) = .ok (res, st') ∧ post st st' ∧
          (false = true → res.isSome = true → st.current < st'.current)) := by
      intro op hbody
      rcases IHprim (bump st) (by omega) hbc with ⟨herr, hne2⟩ | ⟨res, st2, heq, hp, -⟩
      · refine Or.inl ⟨?_, fun he => hne2 (eof_ahead_bump hg hne he)⟩
        rw [hbody, herr]
        simp only [obind_error]
      · cases res with
        | none =>
          refine Or.inr ⟨none, st2, ?_, post_trans hpb hp, fun h => nomatch h⟩
          rw [hbody, heq]
          simp only [obind_ok_none]
        | some r =>
          have hc2 : st2.current ≤ st2.tokens.length := by rw [hp.1]; exact hp.2.2.1
          have hr2 : rem st2 ≤ rem (bump st) := rem_le_of_post hp
          rcases IHmull (Node.BinaryOperationNode e op r) st2 (by omega) hc2 with
            ⟨herr3, hne3⟩ | ⟨res3, st3, heq3, hp3, -⟩
          · refine Or.inl ⟨?_, fun he => hne3 ((post_trans hpb hp).2.2.2 he)⟩
            rw [hbody, heq]
            simp only [obind_ok_some]
            exact herr3
          · refine Or.inr ⟨res3, st3, ?_, post_trans hpb (post_trans hp hp3),
              fun h => nomatch h⟩
            rw [hbody, heq]
            simp only [obind_ok_some]
            exact heq3
    rcases hms with hts | hts
    · refine main .Multiply ?_
      simp only [parse_multiplication_loop, hma, except_bind_ok]
      rw [if_pos trivial, previous_bump hg]
      simp only [except_bind_ok, hts]
    · refine main .Divide ?_
      simp only [parse_multiplication_loop, hma, except_bind_ok]
      rw [if_pos trivial, previous_bump hg]
      simp only [except_bind_ok, hts]
  · refine Or.inr ⟨some e, st, ?_, post_refl hc, fun h => nomatch h⟩
    simp only [parse_multiplication_loop, hma, except_bind_ok, Bool.false_eq_true,
      if_false, except_pure_eq]

theorem master_mul_step {v : Nat} (IHprim : M_node parse_primary 1 true v)
    (IHmull : ∀ e, M_node (fun st f => parse_multiplication_loop e st f) 2 false v) :
    M_node parse_multiplication 3 true (v + 1) := by
  intro st hb hc
  rcases IHprim st (by omega) hc with ⟨herr, hne⟩ | ⟨res, st1, heq, hp, hs⟩
  · refine Or.inl ⟨?_, hne⟩
    simp only [parse_multiplication]
    rw [herr]
    simp only [obind_error]
  · cases res with
    | none =>
      refine Or.inr ⟨none, st1, ?_, hp, fun _ h => nomatch h⟩
      simp only [parse_multiplication]
      rw [heq]
      simp only [obind_ok_none]
    | some x =>
      have hstrict : st.current < st1.current := hs rfl rfl
      have hc1 : st1.current ≤ st1.tokens.length := by rw [hp.1]; exact hp.2.2.1
      have hr1 : rem st1 ≤ rem st := rem_le_of_post hp
      rcases IHmull x st1 (by omega) hc1 with ⟨herr2, hne2⟩ | ⟨res2, st2, heq2, hp2, -⟩
      · refine Or.inl ⟨?_, fun he => hne2 (hp.2.2.2 he)⟩
        simp only [parse_multiplication]
        rw [heq]
        simp only [obind_ok_some]
        exact herr2
      · refine Or.inr ⟨res2, st2, ?_, post_trans hp hp2, fun _ _ => ?_⟩
        · simp only [parse_multiplication]
          rw [heq]
          simp only [obind_ok_some]
          exact heq2
        · have := hp2.2.1
          omega
      
theorem master_addloop_step {v : Nat} (IHmul : M_node parse_multiplication 3 true v)
    (IHaddl : ∀ e, M_node (fun st f => parse_addition_loop e st f) 4 false v) :
    ∀ e, M_node (fun st f => parse_addition_loop e st f) 4 false (v + 1) := by
  intro e st hb hc
  rcases match_any_cases st .Plus [.Minus] with ⟨hma, hg⟩ | ⟨t, hg, ⟨hne, hmem, hma⟩ | ⟨hm, hma⟩⟩
  · exact Or.inl ⟨by simp only [parse_addition_loop, hma, except_bind_error],
      not_eof_ahead_of_oob hg⟩
  · have hrem : rem st = rem (bump st) + 1 := rem_bump hg
    have hbc : (bump st).current ≤ (bump st).tokens.length := cur_lt_of_get_some hg
    have hpb : post st (bump st) := post_bump hg hne
    have hms : t.token_type = .Plus ∨ t.token_type = .Minus := by simpa using hmem
    have main : ∀ op : BinaryOperator,
        (parse_addition_loop e st (v + 1) =
          obind (parse_multiplication (bump st) v) fun right st2 =>
            parse_addition_loop (Node.BinaryOperationNode e op right) st2 v) →
        (parse_addition_loop e st (v + 1) = .error .indexPanic ∧ ¬ eof_ahead st) ∨
        (∃ res st', parse_addition_loop e st (v + 1) = .ok (res, st') ∧ post st st' ∧
          (false = true → res.isSome = true → st.current < st'.current)) := by
      intro op hbody
      rcases IHmul (bump st) (by omega) hbc with ⟨herr, hne2⟩ | ⟨res, st2, heq, hp, -⟩
      · refine Or.inl ⟨?_, fun he => hne2 (eof_ahead_bump hg hne he)⟩
        rw [hbody, herr]
        simp only [obind_error]
      · cases res with
        | none =>
          refine Or.inr ⟨none, st2, ?_, post_trans hpb hp, fun h => nomatch h⟩
          rw [hbody, heq]
          simp only [obind_ok_none]
        | some r =>
          have hc2 : st2.current ≤ st2.tokens.length := by rw [hp.1]; exact hp.2.2.1
          have hr2 : rem st2 ≤ rem (bump st) := rem_le_of_post hp
          rcases IHaddl (Node.BinaryOperationNode e op r) st2 (by omega) hc2 with
            ⟨herr3, hne3⟩ | ⟨res3, st3, heq3, hp3, -⟩
          · refine Or.inl ⟨?_, fun he => hne3 ((post_trans hpb hp).2.2.2 he)⟩
            rw [hbody, heq]
            simp only [obind_ok_some]
            exact herr3
          · refine Or.inr ⟨res3, st3, ?_, post_trans hpb (post_trans hp hp3),
              fun h => nomatch h⟩
            rw [hbody, heq]
            simp only [obind_ok_some]
            exact heq3
    rcases hms with hts | hts
    · refine main .Add ?_
      simp only [parse_addition_loop, hma, except_bind_ok]
      rw [if_pos trivial, previous_bump hg]
      simp only [except_bind_ok, hts]
    · refine main .Subtract ?_
      simp only [parse_addition_loop, hma, except_bind_ok]
      rw [if_pos trivial, previous_bump hg]
      simp only [except_bind_ok, hts]
  · refine Or.inr ⟨some e, st, ?_, post_refl hc, fun h => nomatch h⟩
    simp only [parse_addition_loop, hma, except_bind_ok, Bool.false_eq_true,
      if_false, except_pure_eq]

theorem master_add_step {v : Nat} (IHmul : M_node parse_multiplication 3 true v)
    (IHaddl : ∀ e, M_node (fun st f => parse_addition_loop e st f) 4 false v) :
    M_node parse_addition 5 true (v + 1) := by
  intro st hb hc
  rcases IHmul st (by omega) hc with ⟨herr, hne⟩ | ⟨res, st1, heq, hp, hs⟩
  · refine Or.inl ⟨?_, hne⟩
    simp only [parse_addition]
    rw [herr]
    simp only [obind_error]
  · cases res with
    | none =>
      refine Or.inr ⟨none, st1, ?_, hp, fun _ h => nomatch h⟩
      simp only [parse_addition]
      rw [heq]
      simp only [obind_ok_none]
    | some x =>
      have hstrict : st.current < st1.current := hs rfl rfl
      have hc1 : st1.current ≤ st1.tokens.length := by rw [hp.1]; exact hp.2.2.1
      have hr1 : rem st1 ≤ rem st := rem_le_of_post hp
      rcases IHaddl x st1 (by omega) hc1 with ⟨herr2, hne2⟩ | ⟨res2, st2, heq2, hp2, -⟩
      · refine Or.inl ⟨?_, fun he => hne2 (hp.2.2.2 he)⟩
        simp only [parse_addition]
        rw [heq]
        simp only [obind_ok_some]
        exact herr2
      · refine Or.inr ⟨res2, st2, ?_, post_trans hp hp2, fun _ _ => ?_⟩
        · simp only [parse_addition]
          rw [heq]
          simp only [obind_ok_some]
          exact heq2
        · have := hp2.2.1
          omega

end Put


namespace Put

theorem rem_succ_le_of_strict {a b : PState} (h : post a b) (hl : a.current < b.current) :
    rem b + 1 ≤ rem a := by
  obtain ⟨e, l, u, -⟩ := h
  unfold rem
  rw [e]
  omega

theorem master_var_step {v : Nat} (IHexpr : M_node parse_expression 6 true v) :
    M_node parse_variable_declaration 7 false (v + 1) := by
  intro st hb hc
  rcases consume_cases st .Identifier "Expect variable name." with
    ⟨hcs, hg⟩ | ⟨nt, hg, ⟨hne, htt, hcs⟩ | ⟨hm, hcs⟩⟩
  · exact Or.inl ⟨by simp only [parse_variable_declaration, hcs, except_bind_error,
      obind_error], not_eof_ahead_of_oob hg⟩
  · -- name consumed
    have hpb : post st (bump st) := post_bump hg hne
    have hrem : rem st = rem (bump st) + 1 := rem_bump hg
    rcases match_token_cases (bump st) .Assign with
      ⟨hmt, hg2⟩ | ⟨at2, hg2, ⟨hne2, htt2, hmt⟩ | ⟨hm2, hmt⟩⟩
    · refine Or.inl ⟨?_, fun he => not_eof_ahead_of_oob hg2 (hpb.2.2.2 he)⟩
      simp only [parse_variable_declaration, hcs, obind_ok_some, hmt, except_bind_error]
    · -- `=` consumed: initializer expression
      have hpb2 : post (bump st) (bump (bump st)) := post_bump hg2 hne2
      have hrem2 : rem (bump st) = rem (bump (bump st)) + 1 := rem_bump hg2
      have hbc2 : (bump (bump st)).current ≤ (bump (bump st)).tokens.length :=
        cur_lt_of_get_some hg2
      rcases IHexpr (bump (bump st)) (by omega) hbc2 with
        ⟨herr, hnee⟩ | ⟨res, st3, heq, hp3, -⟩
      · refine Or.inl ⟨?_, fun he => hnee (hpb2.2.2.2 (hpb.2.2.2 he))⟩
        simp only [parse_variable_declaration, hcs, obind_ok_some, hmt, except_bind_ok]
        rw [if_pos trivial, herr]
        simp only [obind_error]
      · cases res with
        | none =>
          refine Or.inr ⟨none, st3, ?_, post_trans hpb (post_trans hpb2 hp3),
            fun h => nomatch h⟩
          simp only [parse_variable_declaration, hcs, obind_ok_some, hmt, except_bind_ok]
          rw [if_pos trivial, heq]
          simp only [obind_ok_none]
        | some e0 =>
          have hpchain : post st st3 := post_trans hpb (post_trans hpb2 hp3)
          rcases consume_cases st3 .Semicolon
              "Expect \x27;\x27 after variable declaration." with
            ⟨hcs3, hg3⟩ | ⟨sst, hg3, ⟨hne3, htt3, hcs3⟩ | ⟨hm3, hcs3⟩⟩
          · refine Or.inl ⟨?_, fun he => not_eof_ahead_of_oob hg3 (hpchain.2.2.2 he)⟩
            simp only [parse_variable_declaration, hcs, obind_ok_some, hmt, except_bind_ok]
            rw [if_pos trivial, heq]
            simp only [obind_ok_some, except_pure_eq, hcs3, obind_error]
          · refine Or.inr ⟨some (Node.AssignmentNode
                (Node.VariableNode nt.lexeme DataType.Integer) e0), bump st3,
              ?_, post_trans hpchain (post_bump hg3 hne3), fun h => nomatch h⟩
            simp only [parse_variable_declaration, hcs, obind_ok_some, hmt, except_bind_ok]
            rw [if_pos trivial, heq]
            simp only [obind_ok_some, except_pure_eq, hcs3, except_pure_eq]
          · refine Or.inr ⟨none, emit st3 ("Parse error: " ++
                "Expect \x27;\x27 after variable declaration." ++ " at line " ++
                toString sst.line), ?_,
              post_trans hpchain (post_emit (by rw [hp3.1]; exact
                (post_trans hpb2 hp3).2.2.1) _), fun h => nomatch h⟩
            simp only [parse_variable_declaration, hcs, obind_ok_some, hmt, except_bind_ok]
            rw [if_pos trivial, heq]
            simp only [obind_ok_some, except_pure_eq, hcs3, obind_ok_none]
    · -- no `=`: bare declaration
      rcases consume_cases (bump st) .Semicolon
          "Expect \x27;\x27 after variable declaration." with
        ⟨hcs3, hg3⟩ | ⟨sst, hg3, ⟨hne3, htt3, hcs3⟩ | ⟨hm3, hcs3⟩⟩
      · refine Or.inl ⟨?_, fun he => not_eof_ahead_of_oob hg3 (hpb.2.2.2 he)⟩
        simp only [parse_variable_declaration, hcs, obind_ok_some, hmt, except_bind_ok,
          Bool.false_eq_true, if_false, except_pure_eq, obind_ok_some, hcs3, obind_error]
      · refine Or.inr ⟨some (Node.VariableNode nt.lexeme DataType.Integer), bump (bump st),
          ?_, post_trans hpb (post_bump hg3 hne3), fun h => nomatch h⟩
        simp only [parse_variable_declaration, hcs, obind_ok_some, hmt, except_bind_ok,
          Bool.false_eq_true, if_false, except_pure_eq, obind_ok_some, hcs3]
      · refine Or.inr ⟨none, emit (bump st) ("Parse error: " ++
            "Expect \x27;\x27 after variable declaration." ++ " at line " ++
            toString sst.line), ?_,
          post_trans hpb (post_emit (show (bump st).current ≤ (bump st).tokens.length
            from cur_lt_of_get_some hg) _), fun h => nomatch h⟩
        simp only [parse_variable_declaration, hcs, obind_ok_some, hmt, except_bind_ok,
          Bool.false_eq_true, if_false, except_pure_eq, obind_ok_some, hcs3, obind_ok_none]
  · -- name missing
    refine Or.inr ⟨none, emit st ("Parse error: " ++ "Expect variable name." ++
      " at line " ++ toString nt.line), ?_, post_emit hc _, fun h => nomatch h⟩
    simp only [parse_variable_declaration, hcs, obind_ok_none]

end Put


namespace Put

theorem master_while_step {v : Nat} (IHexpr : M_node parse_expression 6 true v)
    (IHstmt : M_node parse_statement 8 true v) :
    M_node parse_while_statement 7 false (v + 1) := by
  intro st hb hc
  rcases consume_cases st .LeftParen "Expect \x27(\x27 after \x27while\x27." with
    ⟨hcs, hg⟩ | ⟨t, hg, ⟨hne, htt, hcs⟩ | ⟨hm, hcs⟩⟩
  · exact Or.inl ⟨by simp only [parse_while_statement, hcs, obind_error],
      not_eof_ahead_of_oob hg⟩
  · have hpb : post st (bump st) := post_bump hg hne
    have hrem : rem st = rem (bump st) + 1 := rem_bump hg
    rcases IHexpr (bump st) (by omega) (cur_lt_of_get_some hg) with
      ⟨herr, hnee⟩ | ⟨res, st2, heq, hp2, -⟩
    · refine Or.inl ⟨?_, fun he => hnee (hpb.2.2.2 he)⟩
      simp only [parse_while_statement, hcs, obind_ok_some]
      rw [herr]
      simp only [obind_error]
    · cases res with
      | none =>
        refine Or.inr ⟨none, st2, ?_, post_trans hpb hp2, fun h => nomatch h⟩
        simp only [parse_while_statement, hcs, obind_ok_some]
        rw [heq]
        simp only [obind_ok_none]
      | some condition =>
        have hpc : post st st2 := post_trans hpb hp2
        rcases consume_cases st2 .RightParen "Expect \x27)\x27 after while condition." with
          ⟨hcs2, hg2⟩ | ⟨u, hg2, ⟨hne2, htt2, hcs2⟩ | ⟨hm2, hcs2⟩⟩
        · refine Or.inl ⟨?_, fun he => not_eof_ahead_of_oob hg2 (hpc.2.2.2 he)⟩
          simp only [parse_while_statement, hcs, obind_ok_some]
          rw [heq]
          simp only [obind_ok_some, hcs2, obind_error]
        · have hpb2 : post st2 (bump st2) := post_bump hg2 hne2
          have hrem2 : rem st2 ≤ rem (bump st) := rem_le_of_post hp2
          have hrem3 : rem st2 = rem (bump st2) + 1 := rem_bump hg2
          rcases IHstmt (bump st2) (by omega) (cur_lt_of_get_some hg2) with
            ⟨herr, hnee⟩ | ⟨res3, st4, heq3, hp4, -⟩
          · refine Or.inl ⟨?_, fun he => hnee (hpb2.2.2.2 (hpc.2.2.2 he))⟩
            simp only [parse_while_statement, hcs, obind_ok_some]
            rw [heq]
            simp only [obind_ok_some, hcs2]
            rw [herr]
            simp only [obind_error]
          · cases res3 with
            | none =>
              refine Or.inr ⟨none, st4, ?_,
                post_trans hpc (post_trans hpb2 hp4), fun h => nomatch h⟩
              simp only [parse_while_statement, hcs, obind_ok_some]
              rw [heq]
              simp only [obind_ok_some, hcs2]
              rw [heq3]
              simp only [obind_ok_none]
            | some body =>
              refine Or.inr ⟨some (Node.WhileNode condition body), st4, ?_,
                post_trans hpc (post_trans hpb2 hp4), fun h => nomatch h⟩
              simp only [parse_while_statement, hcs, obind_ok_some]
              rw [heq]
              simp only [obind_ok_some, hcs2]
              rw [heq3]
              simp only [obind_ok_some, except_pure_eq]
        · refine Or.inr ⟨none, emit st2 ("Parse error: " ++
              "Expect \x27)\x27 after while condition." ++ " at line " ++ toString u.line),
            ?_, post_trans hpc (post_emit (by rw [hp2.1]; exact hp2.2.2.1) _),
            fun h => nomatch h⟩
          simp only [parse_while_statement, hcs, obind_ok_some]
          rw [heq]
          simp only [obind_ok_some, hcs2, obind_ok_none]
  · refine Or.inr ⟨none, emit st ("Parse error: " ++
        "Expect \x27(\x27 after \x27while\x27." ++ " at line " ++ toString t.line),
      ?_, post_emit hc _, fun h => nomatch h⟩
    simp only [parse_while_statement, hcs, obind_ok_none]

end Put


namespace Put

theorem master_if_step {v : Nat} (IHexpr : M_node parse_expression 6 true v)
    (IHstmt : M_node parse_statement 8 true v) :
    M_node parse_if_statement 7 false (v + 1) := by
  intro st hb hc
  rcases consume_cases st .LeftParen "Expect \x27(\x27 after \x27if\x27." with
    ⟨hcs, hg⟩ | ⟨t, hg, ⟨hne, htt, hcs⟩ | ⟨hm, hcs⟩⟩
  · exact Or.inl ⟨by simp only [parse_if_statement, hcs, obind_error],
      not_eof_ahead_of_oob hg⟩
  · have hpb : post st (bump st) := post_bump hg hne
    have hrem : rem st = rem (bump st) + 1 := rem_bump hg
    rcases IHexpr (bump st) (by omega) (cur_lt_of_get_some hg) with
      ⟨herr, hnee⟩ | ⟨res, st2, heq, hp2, -⟩
    · refine Or.inl ⟨?_, fun he => hnee (hpb.2.2.2 he)⟩
      simp only [parse_if_statement, hcs, obind_ok_some]
      rw [herr]
      simp only [obind_error]
    · cases res with
      | none =>
        refine Or.inr ⟨none, st2, ?_, post_trans hpb hp2, fun h => nomatch h⟩
        simp only [parse_if_statement, hcs, obind_ok_some]
        rw [heq]
        simp only [obind_ok_none]
      | some condition =>
        have hpc : post st st2 := post_trans hpb hp2
        rcases consume_cases st2 .RightParen "Expect \x27)\x27 after if condition." with
          ⟨hcs2, hg2⟩ | ⟨u, hg2, ⟨hne2, htt2, hcs2⟩ | ⟨hm2, hcs2⟩⟩
        · refine Or.inl ⟨?_, fun he => not_eof_ahead_of_oob hg2 (hpc.2.2.2 he)⟩
          simp only [parse_if_statement, hcs, obind_ok_some]
          rw [heq]
          simp only [obind_ok_some, hcs2, obind_error]
        · have hpb2 : post st2 (bump st2) := post_bump hg2 hne2
          have hrem2 : rem st2 ≤ rem (bump st) := rem_le_of_post hp2
          have hrem3 : rem st2 = rem (bump st2) + 1 := rem_bump hg2
          rcases IHstmt (bump st2) (by omega) (cur_lt_of_get_some hg2) with
            ⟨herr, hnee⟩ | ⟨res3, st4, heq3, hp4, -⟩
          · refine Or.inl ⟨?_, fun he => hnee (hpb2.2.2.2 (hpc.2.2.2 he))⟩
            simp only [parse_if_statement, hcs, obind_ok_some]
            rw [heq]
            simp only [obind_ok_some, hcs2]
            rw [herr]
            simp only [obind_error]
          · cases res3 with
            | none =>
              refine Or.inr ⟨none, st4, ?_,
                post_trans hpc (post_trans hpb2 hp4), fun h => nomatch h⟩
              simp only [parse_if_statement, hcs, obind_ok_some]
              rw [heq]
              simp only [obind_ok_some, hcs2]
              rw [heq3]
              simp only [obind_ok_none]
            | some tb =>
              have hpc4 : post st st4 := post_trans hpc (post_trans hpb2 hp4)
              rcases match_token_cases st4 .Else with
                ⟨hmt, hg4⟩ | ⟨w, hg4, ⟨hne4, htt4, hmt⟩ | ⟨hm4, hmt⟩⟩
              · refine Or.inl ⟨?_, fun he => not_eof_ahead_of_oob hg4 (hpc4.2.2.2 he)⟩
                simp only [parse_if_statement, hcs, obind_ok_some]
                rw [heq]
                simp only [obind_ok_some, hcs2]
                rw [heq3]
                simp only [obind_ok_some, hmt, except_bind_error]
              · have hpb4 : post st4 (bump st4) := post_bump hg4 hne4
                have hrem4 : rem st4 ≤ rem (bump st2) := rem_le_of_post hp4
                have hrem5 : rem st4 = rem (bump st4) + 1 := rem_bump hg4
                rcases IHstmt (bump st4) (by omega) (cur_lt_of_get_some hg4) with
                  ⟨herr, hnee⟩ | ⟨res5, st6, heq5, hp6, -⟩
                · refine Or.inl ⟨?_, fun he => hnee (hpb4.2.2.2 (hpc4.2.2.2 he))⟩
                  simp only [parse_if_statement, hcs, obind_ok_some]
                  rw [heq]
                  simp only [obind_ok_some, hcs2]
                  rw [heq3]
                  simp only [obind_ok_some, hmt, except_bind_ok]
                  rw [if_pos trivial, herr]
                  simp only [obind_error]
                · cases res5 with
                  | none =>
                    refine Or.inr ⟨none, st6, ?_,
                      post_trans hpc4 (post_trans hpb4 hp6), fun h => nomatch h⟩
                    simp only [parse_if_statement, hcs, obind_ok_some]
                    rw [heq]
                    simp only [obind_ok_some, hcs2]
                    rw [heq3]
                    simp only [obind_ok_some, hmt, except_bind_ok]
                    rw [if_pos trivial, heq5]
                    simp only [obind_ok_none]
                  | some eb =>
                    refine Or.inr ⟨some (Node.IfNode condition tb (some eb)), st6, ?_,
                      post_trans hpc4 (post_trans hpb4 hp6), fun h => nomatch h⟩
                    simp only [parse_if_statement, hcs, obind_ok_some]
                    rw [heq]
                    simp only [obind_ok_some, hcs2]
                    rw [heq3]
                    simp only [obind_ok_some, hmt, except_bind_ok]
                    rw [if_pos trivial, heq5]
                    simp only [obind_ok_some, except_pure_eq]
              · refine Or.inr ⟨some (Node.IfNode condition tb none), st4, ?_, hpc4,
                  fun h => nomatch h⟩
                simp only [parse_if_statement, hcs, obind_ok_some]
                rw [heq]
                simp only [obind_ok_some, hcs2]
                rw [heq3]
                simp only [obind_ok_some, hmt, except_bind_ok, Bool.false_eq_true,
                  if_false, except_pure_eq]
        · refine Or.inr ⟨none, emit st2 ("Parse error: " ++
              "Expect \x27)\x27 after if condition." ++ " at line " ++ toString u.line),
            ?_, post_trans hpc (post_emit (by rw [hp2.1]; exact hp2.2.2.1) _),
            fun h => nomatch h⟩
          simp only [parse_if_statement, hcs, obind_ok_some]
          rw [heq]
          simp only [obind_ok_some, hcs2, obind_ok_none]
  · refine Or.inr ⟨none, emit st ("Parse error: " ++
        "Expect \x27(\x27 after \x27if\x27." ++ " at line " ++ toString t.line),
      ?_, post_emit hc _, fun h => nomatch h⟩
    simp only [parse_if_statement, hcs, obind_ok_none]

end Put


namespace Put

theorem master_stmt_step {v : Nat}
    (IHif : M_node parse_if_statement 7 false v)
    (IHwhile : M_node parse_while_statement 7 false v)
    (IHvar : M_node parse_variable_declaration 7 false v)
    (IHexpr : M_node parse_expression 6 true v) :
    M_node parse_statement 8 true (v + 1) := by
  intro st hb hc
  rcases match_token_cases st .If with ⟨hmt, hg⟩ | ⟨t, hg, ⟨hne, htt, hmt⟩ | ⟨hm1, hmt⟩⟩
  · exact Or.inl ⟨by simp only [parse_statement, hmt, except_bind_error],
      not_eof_ahead_of_oob hg⟩
  · -- if statement
    have hpb : post st (bump st) := post_bump hg hne
    have hrem : rem st = rem (bump st) + 1 := rem_bump hg
    rcases IHif (bump st) (by omega) (cur_lt_of_get_some hg) with
      ⟨herr, hnee⟩ | ⟨res, st2, heq, hp2, -⟩
    · refine Or.inl ⟨?_, fun he => hnee (hpb.2.2.2 he)⟩
      simp only [parse_statement, hmt, except_bind_ok]
      rw [if_pos trivial]
      exact herr
    · refine Or.inr ⟨res, st2, ?_, post_trans hpb hp2, fun _ _ => ?_⟩
      · simp only [parse_statement, hmt, except_bind_ok]
        rw [if_pos trivial]
        exact heq
      · have h21 : st.current + 1 ≤ st2.current := hp2.2.1
        omega
  · have hmt1 : match_token st .If = .ok (false, st) := hmt
    by_cases htw : t.token_type = .While
    · have hnew : t.token_type ≠ .EOF := by rw [htw]; decide
      have hmt2 : match_token st .While = .ok (true, bump st) := match_token_hit hg hnew htw
      have hpb : post st (bump st) := post_bump hg hnew
      have hrem : rem st = rem (bump st) + 1 := rem_bump hg
      rcases IHwhile (bump st) (by omega) (cur_lt_of_get_some hg) with
        ⟨herr, hnee⟩ | ⟨res, st2, heq, hp2, -⟩
      · refine Or.inl ⟨?_, fun he => hnee (hpb.2.2.2 he)⟩
        simp only [parse_statement, hmt1, hmt2, except_bind_ok, Bool.false_eq_true, if_false]
        rw [if_pos trivial]
        exact herr
      · refine Or.inr ⟨res, st2, ?_, post_trans hpb hp2, fun _ _ => ?_⟩
        · simp only [parse_statement, hmt1, hmt2, except_bind_ok, Bool.false_eq_true,
            if_false]
          rw [if_pos trivial]
          exact heq
        · have h21 : st.current + 1 ≤ st2.current := hp2.2.1
          omega
    · have hmt2 : match_token st .While = .ok (false, st) := match_token_miss hg (Or.inr htw)
      by_cases htv : t.token_type = .Var
      · have hnev : t.token_type ≠ .EOF := by rw [htv]; decide
        have hmt3 : match_token st .Var = .ok (true, bump st) := match_token_hit hg hnev htv
        have hpb : post st (bump st) := post_bump hg hnev
        have hrem : rem st = rem (bump st) + 1 := rem_bump hg
        rcases IHvar (bump st) (by omega) (cur_lt_of_get_some hg) with
          ⟨herr, hnee⟩ | ⟨res, st2, heq, hp2, -⟩
        · refine Or.inl ⟨?_, fun he => hnee (hpb.2.2.2 he)⟩
          simp only [parse_statement, hmt1, hmt2, hmt3, except_bind_ok,
            Bool.false_eq_true, if_false]
          rw [if_pos trivial]
          exact herr
        · refine Or.inr ⟨res, st2, ?_, post_trans hpb hp2, fun _ _ => ?_⟩
          · simp only [parse_statement, hmt1, hmt2, hmt3, except_bind_ok,
              Bool.false_eq_true, if_false]
            rw [if_pos trivial]
            exact heq
          · have h21 : st.current + 1 ≤ st2.current := hp2.2.1
            omega
      · have hmt3 : match_token st .Var = .ok (false, st) := match_token_miss hg (Or.inr htv)
        rcases IHexpr st (by omega) hc with ⟨herr, hnee⟩ | ⟨res, st2, heq, hp2, hs⟩
        · refine Or.inl ⟨?_, hnee⟩
          simp only [parse_statement, hmt1, hmt2, hmt3, except_bind_ok,
            Bool.false_eq_true, if_false]
          exact herr
        · refine Or.inr ⟨res, st2, ?_, hp2, fun _ hsome => hs rfl hsome⟩
          simp only [parse_statement, hmt1, hmt2, hmt3, except_bind_ok,
            Bool.false_eq_true, if_false]
          exact heq

theorem master_loop_step {v : Nat} (IHstmt : M_node parse_statement 8 true v)
    (IHloop : M_list v) : M_list (v + 1) := by
  intro acc st hb hc
  rcases is_at_end_cases st with ⟨hae, hg⟩ | ⟨t, hg, hae⟩
  · exact Or.inl ⟨by simp only [parse_loop, hae, except_bind_error],
      not_eof_ahead_of_oob hg⟩
  · by_cases het : t.token_type = .EOF
    · refine Or.inr ⟨acc, st, ?_, post_refl hc⟩
      simp only [parse_loop, is_at_end_true hg het, except_bind_ok]
      rw [if_pos trivial]
      simp only [except_pure_eq]
    · rcases IHstmt st (by omega) hc with ⟨herr, hnee⟩ | ⟨res, st1, heq, hp1, hs⟩
      · refine Or.inl ⟨?_, hnee⟩
        simp only [parse_loop, is_at_end_false hg het, except_bind_ok,
          Bool.false_eq_true, if_false]
        rw [herr]
        simp only [except_bind_error]
      · cases res with
        | none =>
          refine Or.inr ⟨acc, st1, ?_, hp1⟩
          simp only [parse_loop, is_at_end_false hg het, except_bind_ok,
            Bool.false_eq_true, if_false]
          rw [heq]
          simp only [except_bind_ok, except_pure_eq]
        | some s =>
          have hstrict : st.current < st1.current := hs rfl rfl
          have hrem1 : rem st1 + 1 ≤ rem st := rem_succ_le_of_strict hp1 hstrict
          have hc1 : st1.current ≤ st1.tokens.length := by rw [hp1.1]; exact hp1.2.2.1
          rcases IHloop (acc ++ [s]) st1 (by omega) hc1 with
            ⟨herr2, hne2⟩ | ⟨res2, st2, heq2, hp2⟩
          · refine Or.inl ⟨?_, fun he => hne2 (hp1.2.2.2 he)⟩
            simp only [parse_loop, is_at_end_false hg het, except_bind_ok,
              Bool.false_eq_true, if_false]
            rw [heq]
            simp only [except_bind_ok]
            exact herr2
          · refine Or.inr ⟨res2, st2, ?_, post_trans hp1 hp2⟩
            simp only [parse_loop, is_at_end_false hg het, except_bind_ok,
              Bool.false_eq_true, if_false]
            rw [heq]
            simp only [except_bind_ok]
            exact heq2

end Put


namespace Put

theorem parse_master : (fuel : Nat) →
    M_list fuel ∧
    M_node parse_statement 8 true fuel ∧
    M_node parse_if_statement 7 false fuel ∧
    M_node parse_while_statement 7 false fuel ∧
    M_node parse_variable_declaration 7 false fuel ∧
    M_node parse_expression 6 true fuel ∧
    M_node parse_addition 5 true fuel ∧
    (∀ e, M_node (fun st f => parse_addition_loop e st f) 4 false fuel) ∧
    M_node parse_multiplication 3 true fuel ∧
    (∀ e, M_node (fun st f => parse_multiplication_loop e st f) 2 false fuel) ∧
    M_node parse_primary 1 true fuel
  | 0 => by
    refine ⟨?_, ?_, ?_, ?_, ?_, ?_, ?_, fun e => ?_, ?_, fun e => ?_, ?_⟩ <;>
      intro st h <;> omega
  | v + 1 => by
    obtain ⟨IHloop, IHstmt, IHif, IHwhile, IHvar, IHexpr, IHadd, IHaddl,
            IHmul, IHmull, IHprim⟩ := parse_master v
    exact ⟨master_loop_step IHstmt IHloop,
           master_stmt_step IHif IHwhile IHvar IHexpr,
           master_if_step IHexpr IHstmt,
           master_while_step IHexpr IHstmt,
           master_var_step IHexpr,
           master_expr_step IHadd,
           master_add_step IHmul IHaddl,
           master_addloop_step IHmul IHaddl,
           master_mul_step IHprim IHmull,
           master_mulloop_step IHprim IHmull,
           master_primary_step IHexpr⟩

/-- The parser run with the canonical fuel either panics on an index (only
possible without an EOF ahead of the cursor) or returns a program; it never
exhausts the fuel. -/
theorem parse_total (tokens : List Token) :
    (parse tokens (parse_fuel tokens) = .error .indexPanic ∧
       ¬ eof_ahead (PState.mk tokens 0 [])) ∨
    (∃ p st', parse tokens (parse_fuel tokens) = .ok (p, st')) := by
  have h := (parse_master (parse_fuel tokens)).1 [] (PState.mk tokens 0 [])
    (by unfold parse_fuel rem; simp only []; omega) (by simp only []; omega)
  rcases h with ⟨herr, hne⟩ | ⟨res, st', heq, -⟩
  · refine Or.inl ⟨?_, hne⟩
    unfold parse
    rw [herr]
    simp only [except_bind_error]
  · refine Or.inr ⟨ProgramNode.mk res, st', ?_⟩
    unfold parse
    rw [heq]
    simp only [except_bind_ok, except_pure_eq]

/-- With an EOF token anywhere in the list, the canonical-fuel run returns a
program. -/
theorem parse_ok_of_eof {tokens : List Token} {k : Nat} {t : Token}
    (hk : tokens.get? k = some t) (ht : t.token_type = .EOF) :
    ∃ p st', parse tokens (parse_fuel tokens) = .ok (p, st') := by
  rcases parse_total tokens with ⟨-, hne⟩ | h
  · exact absurd ⟨k, t, Nat.zero_le k, hk, ht⟩ hne
  · exact h

end Put


/-- C6: for every finite token sequence the canonical-fuel run of `parse`
never exhausts its fuel — the loop cannot run forever, because each parsed
statement strictly advances the cursor — and on every EOF-terminated sequence
(every sequence the lexer can produce) it returns a complete or partial
program. -/
theorem put_c6_termination :
    (∀ tokens : List Token, parse tokens (parse_fuel tokens) ≠ .error .outOfFuel) ∧
    (∀ (tokens : List Token) (t : Token), tokens.getLast? = some t →
       t.token_type = .EOF →
       ∃ p st', parse tokens (parse_fuel tokens) = .ok (p, st')) := by
  constructor
  · intro tokens h
    rcases parse_total tokens with ⟨herr, -⟩ | ⟨p, st', hok⟩
    · rw [herr] at h
      cases h
    · rw [hok] at h
      cases h
  · intro tokens t hl ht
    have hg : tokens.get? (tokens.length - 1) = some t := by
      rw [← List.getLast?_eq_get?]
      exact hl
    exact parse_ok_of_eof hg ht

/-- C6 witness: the termination statement at the empty token list, and the
program-producing statement at the one-token list `[EOF]`. -/
theorem put_c6_termination_witness :
    parse [] (parse_fuel []) ≠ .error .outOfFuel ∧
    ∃ p st', parse [eof_tk] (parse_fuel [eof_tk]) = .ok (p, st') :=
  ⟨put_c6_termination.1 [], put_c6_termination.2 [eof_tk] eof_tk rfl rfl⟩

/-- C9: on every non-empty token sequence ending in `EOF` the whole run of
`parse` stays within the bounds of the token vector — it returns a program
and its out-of-bounds branch is unreachable; without a terminating `EOF`
this fails: the parse of the single token `1` hits the index panic. -/
theorem put_c9_bounds_safety :
    (∀ (tokens : List Token) (t : Token), tokens ≠ [] → tokens.getLast? = some t →
       t.token_type = .EOF →
       ∃ p st', parse tokens (parse_fuel tokens) = .ok (p, st')) ∧
    run_parse [tk .Number "1"] = .error .indexPanic := by
  constructor
  · intro tokens t _ hl ht
    have hg : tokens.get? (tokens.length - 1) = some t := by
      rw [← List.getLast?_eq_get?]
      exact hl
    exact parse_ok_of_eof hg ht
  · rfl

/-- C9 witness: the in-bounds statement applied to the two-token sequence
`1 EOF`, all hypotheses discharged by evaluation. -/
theorem put_c9_bounds_safety_witness :
    ∃ p st',
      parse [tk .Number "1", eof_tk] (parse_fuel [tk .Number "1", eof_tk]) = .ok (p, st') :=
  put_c9_bounds_safety.1 [tk .Number "1", eof_tk] eof_tk
    (List.cons_ne_nil _ _) rfl rfl
